import Mathlib

/-!
Verification development for the MnemosyneOS layered memory store.

This file gives a shallow embedding, in Lean 4, of the memory-layer modules of
the repository (`affective.py`, `semantic.py`, `episodic.py`, `reflective.py`,
`meta.py`) and proves or refutes the frozen behavioural claims about them.

Modelling conventions:
* Python strings are embedded as `List Char` (`Str`), with the string
  operations used by the source (`split`, `strip`, `endswith`, `join`,
  lexicographic comparison) defined as structural Lean functions so that every
  definition evaluates inside the kernel.
* ChromaDB collections are embedded as lists of records in insertion order;
  `get(where=..., limit=...)` filters then truncates, `add` appends, `delete`
  filters out the given ids, `update` replaces in place.  Metadata is an
  insertion-ordered association list (Python `dict` semantics for `update`).
* Similarity search (`collection.query`) delegates its ranking to an explicit
  function parameter (the embedding provider and distance metric are external
  capabilities); `n_results` truncates the ranked list.
* `datetime.now()` is an integer number of seconds supplied as a parameter;
  `isoformat()` becomes a fixed-width decimal rendering, an order-preserving
  stand-in for ISO-8601 timestamps (which compare lexicographically).
* Python exceptions that escape a function are modelled by `PyResult`;
  functions whose `try`/`except` blocks swallow every exception are total.
-/

/-- Python strings are modelled as lists of characters. -/
abbrev Str := List Char

/-- Coerce a Lean string literal to the `Str` model. -/
def chars (s : String) : Str := s.data

/-- The whitespace test used by `str.strip()`. -/
def isWS (c : Char) : Bool := c = ' ' || c = '\t' || c = '\n' || c = '\r'

/-- Model of Python `str.strip()`. -/
def trimL (s : Str) : Str :=
  ((s.dropWhile isWS).reverse.dropWhile isWS).reverse

/-- Boolean prefix test on character lists. -/
def isPrefixOfL : Str → Str → Bool
  | [], _ => true
  | _ :: _, [] => false
  | a :: as, b :: bs => a = b && isPrefixOfL as bs

/-- Model of Python `str.endswith(suffix)`. -/
def endsWithL (s suf : Str) : Bool := isPrefixOfL suf.reverse s.reverse

/-- Fuel-indexed worker for `splitOnL`; the fuel is the length of the input,
which bounds the recursion structurally so the kernel can evaluate it. -/
def splitOnFuel (sep : Str) : Nat → Str → Str → List Str
  | 0, _, acc => [acc.reverse]
  | _ + 1, [], acc => [acc.reverse]
  | fuel + 1, c :: rest, acc =>
    if isPrefixOfL sep (c :: rest) then
      acc.reverse :: splitOnFuel sep fuel (List.drop (sep.length - 1) rest) []
    else
      splitOnFuel sep fuel rest (c :: acc)

/-- Model of Python `str.split(sep)` for a non-empty separator. -/
def splitOnL (s sep : Str) : List Str :=
  splitOnFuel sep (s.length + 1) s []

/-- Model of Python `sep.join(parts)`. -/
def joinL (sep : Str) : List Str → Str
  | [] => []
  | [x] => x
  | x :: xs => x ++ sep ++ joinL sep xs

/-- Lexicographic `≤` on strings (Python string comparison by code point). -/
def strLe : Str → Str → Bool
  | [], _ => true
  | _ :: _, [] => false
  | a :: as, b :: bs => if a = b then strLe as bs else decide (a < b)

/-- Lexicographic `<` on strings. -/
def strLt : Str → Str → Bool
  | [], [] => false
  | [], _ :: _ => true
  | _ :: _, [] => false
  | a :: as, b :: bs => if a = b then strLt as bs else decide (a < b)

/-- Digit-list parser used by `parseIntL`. -/
def parseDigits : Str → Option Nat
  | [] => none
  | ds =>
    if ds.all (·.isDigit) then
      some (ds.foldl (fun acc c => acc * 10 + (c.toNat - 48)) 0)
    else
      none

/-- Model of Python `int(s)`: surrounding whitespace allowed, optional sign,
then decimal digits; anything else raises `ValueError` (here: `none`). -/
def parseIntL (s : Str) : Option Int :=
  match trimL s with
  | '-' :: ds => (parseDigits ds).map (fun n => -(n : Int))
  | '+' :: ds => (parseDigits ds).map (fun n => (n : Int))
  | ds => (parseDigits ds).map (fun n => (n : Int))

/-- Model of Python `float(s)` restricted to plain decimal literals:
optional sign, digits, optional fractional part. -/
def parseFloatL (s : Str) : Option Rat :=
  let core : Str → Option Rat := fun t =>
    match splitOnL t (chars (".")) with
    | [ip] => (parseDigits ip).map (fun n => (n : Rat))
    | [ip, fp] =>
      if (ip.all (·.isDigit) && fp.all (·.isDigit)) && !(ip = [] && fp = []) then
        some (((parseDigits (ip ++ fp)).getD 0 : Rat) / (10 ^ fp.length))
      else none
    | _ => none
  match trimL s with
  | '-' :: t => (core t).map (fun q => -q)
  | '+' :: t => core t
  | t => core t

/-- Fixed-width decimal rendering of a timestamp in seconds: an
order-preserving model of `datetime.isoformat()` output. -/
def isoStr (t : Int) : Str :=
  let ds := Nat.toDigits 10 t.toNat
  List.replicate (12 - ds.length) '0' ++ ds

/-- Seconds in a day, as used to model `datetime.timedelta(days=...)`. -/
def secPerDay : Int := 86400

/-- Seconds in an hour, as used to model `datetime.timedelta(hours=...)`. -/
def secPerHour : Int := 3600

/-- Scalar metadata values storable in a Chroma collection. -/
inductive MetaVal where
  | s (v : Str)
  | num (v : Rat)
  | int (v : Int)
  | bool (v : Bool)
deriving DecidableEq

/-- Record metadata: an insertion-ordered association list, Python `dict`. -/
abbrev Metadata := List (Str × MetaVal)

/-- Generic `dict` assignment `m[k] = v`: replace in place, else append. -/
def alistSet {β : Type} [DecidableEq β] (m : List (Str × β)) (k : Str) (v : β) :
    List (Str × β) :=
  if m.any (fun p => p.1 = k) then
    m.map (fun p => if p.1 = k then (k, v) else p)
  else
    m ++ [(k, v)]

/-- Generic `dict` lookup `m.get(k)`. -/
def alistGet? {β : Type} (m : List (Str × β)) (k : Str) : Option β :=
  (m.find? (fun p => p.1 = k)).map (·.2)

/-- Python `dict.update`: assign every key/value pair of `kvs` in order. -/
def dictUpdate (m : Metadata) (kvs : List (Str × MetaVal)) : Metadata :=
  kvs.foldl (fun acc kv => alistSet acc kv.1 kv.2) m

/-- String-typed metadata lookup with a default (`metadata.get(k, d)`). -/
def mdGetStrD (m : Metadata) (k : Str) (d : Str) : Str :=
  match alistGet? m k with
  | some (MetaVal.s v) => v
  | _ => d

/-- A stored record: id, document text and metadata. -/
structure Record where
  rid : Str
  content : Str
  md : Metadata
deriving DecidableEq

/-- A Chroma collection in insertion order. -/
abbrev Collection := List Record

/-- One field's condition inside a Chroma `where` clause
(`{"$gte": ..., "$lte": ..., "$lt": ..., "$contains": ...}`). -/
structure Cond where
  gte : Option Str := none
  lte : Option Str := none
  lt : Option Str := none
  gteNum : Option Rat := none
  lteNum : Option Rat := none
  containsTag : Option Str := none
deriving DecidableEq

/-- A Chroma `where` clause: a `dict` from metadata field to condition. -/
abbrev WhereClause := List (Str × Cond)

/-- Tag-set reading of a comma-joined tags string (`s.split(", ")`). -/
def tagSplit (s : Str) : List Str := splitOnL s (chars (", "))

/-- Evaluate one field condition against a record's metadata.  A record
lacking the field matches no bound; `$contains` is tag-set membership. -/
def evalCond (m : Metadata) (k : Str) (c : Cond) : Bool :=
  (match c.gte with
   | none => true
   | some s => match alistGet? m k with
     | some (MetaVal.s v) => strLe s v
     | _ => false) &&
  (match c.lte with
   | none => true
   | some s => match alistGet? m k with
     | some (MetaVal.s v) => strLe v s
     | _ => false) &&
  (match c.lt with
   | none => true
   | some s => match alistGet? m k with
     | some (MetaVal.s v) => strLt v s
     | _ => false) &&
  (match c.gteNum with
   | none => true
   | some q => match alistGet? m k with
     | some (MetaVal.num v) => decide (q ≤ v)
     | _ => false) &&
  (match c.lteNum with
   | none => true
   | some q => match alistGet? m k with
     | some (MetaVal.num v) => decide (v ≤ q)
     | _ => false) &&
  (match c.containsTag with
   | none => true
   | some t => match alistGet? m k with
     | some (MetaVal.s v) => (tagSplit v).contains t
     | _ => false)

/-- Evaluate a full `where` clause (conjunction over its fields). -/
def evalWhere (w : WhereClause) (m : Metadata) : Bool :=
  w.all (fun p => evalCond m p.1 p.2)

/-- Embedding of `collection.get(where=..., limit=...)`: filter in insertion order,
then truncate when a limit is given. -/
def collGetWhere (coll : Collection) (w : WhereClause) (limit : Option Nat) :
    Collection :=
  let f := coll.filter (fun r => evalWhere w r.md)
  match limit with
  | none => f
  | some n => f.take n

/-- Embedding of `collection.get(ids=[i])`. -/
def collGetById (coll : Collection) (i : Str) : Option Record :=
  coll.find? (fun r => r.rid = i)

/-- Embedding of `collection.add`: append a record. -/
def collAdd (coll : Collection) (r : Record) : Collection := coll ++ [r]

/-- Embedding of `collection.delete(ids=...)`: drop every record whose id is listed. -/
def collDelete (coll : Collection) (ids : List Str) : Collection :=
  coll.filter (fun r => !(ids.contains r.rid))

/-- Embedding of `collection.update`: replace document and metadata of the given id. -/
def collUpdate (coll : Collection) (i : Str) (content : Str) (m : Metadata) :
    Collection :=
  coll.map (fun r => if r.rid = i then { rid := i, content := content, md := m } else r)

/-- A similarity ranking: given the query text and the records admitted by
the `where` filter, the external vector index returns them ranked with
distances.  This is the abstract capability interface of the backend. -/
abbrev RankFn := Str → Collection → List (Record × Rat)

/-- Embedding of `collection.query(query_texts=[q], n_results=n, where=w)`. -/
def collQuery (rank : RankFn) (coll : Collection) (q : Str) (n : Nat)
    (w : Option WhereClause) : List (Record × Rat) :=
  let base :=
    match w with
    | none => coll
    | some w => coll.filter (fun r => evalWhere w r.md)
  (rank q base).take n

/-- A Python exception escaping a modelled function. -/
inductive PyErr where
  | valueError (msg : Str)
  | other (msg : Str)
deriving DecidableEq

/-- The message text carried by an exception (`str(e)`). -/
def PyErr.msg : PyErr → Str
  | .valueError m => m
  | .other m => m

/-- Result of a modelled Python call: a value, or a raised exception. -/
inductive PyResult (α : Type) where
  | ok (a : α)
  | raised (e : PyErr)
deriving DecidableEq

/-- Whether a call completed without raising. -/
def PyResult.isOk {α : Type} : PyResult α → Bool
  | .ok _ => true
  | .raised _ => false

/-- Metadata key constants used across the layers. -/
def memoryTypeKey : Str := chars ("memory_type")

/-- Key for record creation timestamps. -/
def createdAtKey : Str := chars ("created_at")

/-- Key for record update timestamps. -/
def updatedAtKey : Str := chars ("updated_at")

/-- Key for the comma-joined tag list. -/
def tagsKey : Str := chars ("tags")

/-- Key for the provenance label. -/
def sourceKey : Str := chars ("source")

/-- Key for the affective valence score. -/
def valenceKey : Str := chars ("valence")

/-- Key for episodic event timestamps. -/
def eventTimeKey : Str := chars ("event_time")

/-- Key for a reflection's provenance id list. -/
def sourceMemoriesKey : Str := chars ("source_memories")

/-- Key for the query recorded on generated reflections. -/
def queryKey : Str := chars ("query")

/-- Key for a procedural record's title. -/
def titleKey : Str := chars ("title")

/-- Embedding of `json.dumps` of a list of strings (default `", "` separator, ids contain
no characters needing escapes). -/
def encodeStrList (l : List Str) : Str :=
  ['['] ++ joinL (chars (", ")) (l.map (fun s => ['"'] ++ s ++ ['"'])) ++ [']']

/-- Skip JSON whitespace. -/
def skipWS (s : Str) : Str := s.dropWhile isWS

/-- Consume the body of a JSON string (no escape sequences), returning the
string and the rest of the input. -/
def jsonStrAux : Str → Str → Option (Str × Str)
  | [], _ => none
  | '"' :: rest, acc => some (acc.reverse, rest)
  | '\\' :: _, _ => none
  | c :: rest, acc => jsonStrAux rest (c :: acc)

/-- Fuel-indexed worker parsing the items of a JSON array of strings. -/
def jsonItemsFuel : Nat → Str → List Str → Option (List Str)
  | 0, _, _ => none
  | fuel + 1, s, acc =>
    match s with
    | '"' :: rest =>
      match jsonStrAux rest [] with
      | none => none
      | some (item, rem) =>
        match skipWS rem with
        | ',' :: rem2 => jsonItemsFuel fuel (skipWS rem2) (item :: acc)
        | ']' :: tail => if skipWS tail = [] then some (item :: acc).reverse else none
        | _ => none
    | _ => none

/-- Embedding of `json.loads` restricted to arrays of plain strings; anything else is a
decode failure (`none`). -/
def decodeStrList (s : Str) : Option (List Str) :=
  match skipWS s with
  | '[' :: rest =>
    match skipWS rest with
    | ']' :: tail => if skipWS tail = [] then some [] else none
    | r => jsonItemsFuel (s.length + 1) r []
  | _ => none

/-! ## Affective memory layer (`affective.py`) -/

/-- Embedding of `affective.tag_content`: store content with emotional tags and a valence.
The standard metadata block stores `float(valence)` as passed; the generated
id and the timestamp are explicit parameters. -/
def tag_content (timestamp : Str) (affectId : Str) (content : Str)
    (tags : List Str) (valence : Rat) (metadata : Metadata) (source : Option Str)
    (coll : Collection) : Str × Collection :=
  let md := dictUpdate metadata
    [(memoryTypeKey, MetaVal.s (chars ("affective"))),
     (createdAtKey, MetaVal.s timestamp),
     (updatedAtKey, MetaVal.s timestamp),
     (valenceKey, MetaVal.num valence)]
  let md := if tags ≠ [] then alistSet md tagsKey (MetaVal.s (joinL (chars (", ")) tags)) else md
  let md :=
    match source with
    | some src => if src = [] then md else alistSet md sourceKey (MetaVal.s src)
    | none => md
  (affectId, collAdd coll { rid := affectId, content := content, md := md })

/-- Embedding of `affective.update_affect`: partial update of an affect item; a provided
valence is clamped to `[-1, 1]`; returns `false` when the id is unknown. -/
def update_affect (nowTs : Str) (affectId : Str) (content : Option Str)
    (tags : Option (List Str)) (valence : Option Rat) (metadata : Option Metadata)
    (coll : Collection) : Bool × Collection :=
  match collGetById coll affectId with
  | none => (false, coll)
  | some r =>
    let updatedContent := match content with | some c => c | none => r.content
    let md :=
      match metadata with
      | some m => dictUpdate r.md m
      | none => r.md
    let md :=
      match tags with
      | some ts => alistSet md tagsKey (MetaVal.s (joinL (chars (", ")) ts))
      | none => md
    let md :=
      match valence with
      | some v => alistSet md valenceKey (MetaVal.num (max (-1 : Rat) (min 1 v)))
      | none => md
    let md := alistSet md updatedAtKey (MetaVal.s nowTs)
    (true, collUpdate coll affectId updatedContent md)

/-- An item of the affect feed (`{id, content, metadata, valence}`). -/
structure AffectItem where
  rid : Str
  content : Str
  md : Metadata
  valence : Rat
deriving DecidableEq

/-- The extracted valence of a feed item (`metadata.get("valence", 0.0)`). -/
def itemValence (m : Metadata) : Rat :=
  match alistGet? m valenceKey with
  | some (MetaVal.num v) => v
  | _ => 0

/-- Parse the `"min:max"` valence-range argument of the affect feed;
a `float()` failure is caught and disables the valence filter. -/
def parseValenceRange (valenceRange : Option Str) : Option Rat × Option Rat :=
  match valenceRange with
  | none => (none, none)
  | some vr =>
    if vr = [] then (none, none)
    else
      match splitOnL vr (chars (":")) with
      | [a, b] =>
        (match parseFloatL a, parseFloatL b with
         | some x, some y => (some x, some y)
         | _, _ => (none, none))
      | [a] =>
        (match parseFloatL a with
         | some x => (some x, some x)
         | none => (none, none))
      | _ => (none, none)

/-- The items of `affective.get_affect_feed` before the final sort:
tag and valence filters applied by the index, then formatting. -/
def get_affect_feed_items (tag : Option Str) (valenceRange : Option Str)
    (limit : Nat) (coll : Collection) : List AffectItem :=
  let mm := parseValenceRange valenceRange
  let w : WhereClause :=
    match tag with
    | some t => if t = [] then [] else [(tagsKey, { containsTag := some t })]
    | none => []
  let w : WhereClause :=
    match mm with
    | (some mn, some mx) =>
      alistSet w valenceKey
        { gteNum := some (max (-1 : Rat) (min 1 mn)),
          lteNum := some (max (-1 : Rat) (min 1 mx)) }
    | _ => w
  (collGetWhere coll w (some limit)).map
    (fun r => { rid := r.rid, content := r.content, md := r.md, valence := itemValence r.md })

/-- Sort key of the affect feed (`metadata.get("created_at", "")`). -/
def feedKey (a : AffectItem) : Str := mdGetStrD a.md createdAtKey []

/-- The descending `created_at` order of the affect feed
(`items.sort(key=..., reverse=True)`). -/
def feedDescRel (a b : AffectItem) : Prop := strLe (feedKey b) (feedKey a) = true

instance : DecidableRel feedDescRel := fun a b =>
  inferInstanceAs (Decidable (strLe (feedKey b) (feedKey a) = true))

/-- Embedding of `affective.get_affect_feed`: filtered items, most recent first.  The
stable `list.sort` is modelled by the stable `insertionSort`. -/
def get_affect_feed (tag : Option Str) (valenceRange : Option Str) (limit : Nat)
    (coll : Collection) : List AffectItem :=
  List.insertionSort feedDescRel (get_affect_feed_items tag valenceRange limit coll)

/-! ## Semantic and episodic memory layers (`semantic.py`, `episodic.py`) -/

/-- A formatted retrieval result (`{id, content, metadata, relevance}`). -/
structure RetItem where
  rid : Str
  content : Str
  md : Metadata
  relevance : Rat
deriving DecidableEq

/-- Format a ranked `(record, distance)` pair: relevance is
`1.0 - min(distance, 1.0)`. -/
def toRetItem (p : Record × Rat) : RetItem :=
  { rid := p.1.rid, content := p.1.content, md := p.1.md, relevance := 1 - min p.2 1 }

/-- Embedding of `semantic.store_memory`: attach standard metadata and append the record.
There is no content validation; the operation always succeeds once the index
is reachable, with `created_at == updated_at == timestamp`. -/
def semantic_store_memory (timestamp : Str) (memoryId : Str) (content : Str)
    (metadata : Metadata) (tags : List Str) (source : Option Str)
    (coll : Collection) : Str × Collection :=
  let md := dictUpdate metadata
    [(memoryTypeKey, MetaVal.s (chars ("semantic"))),
     (createdAtKey, MetaVal.s timestamp),
     (updatedAtKey, MetaVal.s timestamp)]
  let md := if tags ≠ [] then alistSet md tagsKey (MetaVal.s (joinL (chars (", ")) tags)) else md
  let md :=
    match source with
    | some src => if src = [] then md else alistSet md sourceKey (MetaVal.s src)
    | none => md
  (memoryId, collAdd coll { rid := memoryId, content := content, md := md })

/-- Embedding of `semantic.retrieve_memories`: similarity query, formatted results. -/
def semantic_retrieve_memories (rank : RankFn) (q : Str) (limit : Nat)
    (coll : Collection) : List RetItem :=
  (collQuery rank coll q limit none).map toRetItem

/-- Embedding of `episodic.store_memory`: standard metadata plus `event_time`, which
defaults to the creation timestamp when the caller did not supply one. -/
def episodic_store_memory (timestamp : Str) (memoryId : Str) (content : Str)
    (metadata : Metadata) (tags : List Str) (source : Option Str)
    (coll : Collection) : Str × Collection :=
  let evt := (alistGet? metadata eventTimeKey).getD (MetaVal.s timestamp)
  let md := dictUpdate metadata
    [(memoryTypeKey, MetaVal.s (chars ("episodic"))),
     (createdAtKey, MetaVal.s timestamp),
     (updatedAtKey, MetaVal.s timestamp),
     (eventTimeKey, evt)]
  let md := if tags ≠ [] then alistSet md tagsKey (MetaVal.s (joinL (chars (", ")) tags)) else md
  let md :=
    match source with
    | some src => if src = [] then md else alistSet md sourceKey (MetaVal.s src)
    | none => md
  (memoryId, collAdd coll { rid := memoryId, content := content, md := md })

/-- The `time_range` parser shared (by textual duplication in the source) by
episodic retrieval, reflection retrieval and reflection sampling:
`<N>d` and `<N>h` subtract from now, any other suffix falls back to 30 days,
and a `d`/`h` string whose prefix is not an integer raises `ValueError`
out of `int(...)`. -/
def timeRangeStartDate (nowSec : Int) (tr : Str) : PyResult Str :=
  if endsWithL tr (chars ("d")) then
    match parseIntL tr.dropLast with
    | some days => .ok (isoStr (nowSec - days * secPerDay))
    | none => .raised (.valueError (chars ("invalid literal for int() with base 10: ") ++ tr.dropLast))
  else if endsWithL tr (chars ("h")) then
    match parseIntL tr.dropLast with
    | some hours => .ok (isoStr (nowSec - hours * secPerHour))
    | none => .raised (.valueError (chars ("invalid literal for int() with base 10: ") ++ tr.dropLast))
  else
    .ok (isoStr (nowSec - 30 * secPerDay))

/-- The `where` filter built from an optional `time_range` over the given
temporal field (`event_time` for episodic memories, `created_at` for
reflections); an absent or empty `time_range` applies no filter. -/
def timeFilterOn (key : Str) (nowSec : Int) (timeRange : Option Str) :
    PyResult (Option WhereClause) :=
  match timeRange with
  | none => .ok none
  | some tr =>
    if tr = [] then .ok none
    else
      match timeRangeStartDate nowSec tr with
      | .ok start => .ok (some [(key, { gte := some start })])
      | .raised e => .raised e

/-- Embedding of `episodic.retrieve_memories`: similarity query bounded by the optional
`time_range` filter on `event_time`; a malformed numeric range propagates
the `ValueError`. -/
def episodic_retrieve_memories (rank : RankFn) (nowSec : Int) (q : Str)
    (limit : Nat) (timeRange : Option Str) (coll : Collection) :
    PyResult (List RetItem) :=
  match timeFilterOn eventTimeKey nowSec timeRange with
  | .raised e => .raised e
  | .ok w => .ok ((collQuery rank coll q limit w).map toRetItem)

/-- The items of `episodic.retrieve_by_timeframe` before the final sort:
records whose `event_time` lies in `[start_date, end_date]`, the end date
defaulting to now. -/
def retrieve_by_timeframe_items (nowSec : Int) (startDate : Str)
    (endDate : Option Str) (limit : Nat) (coll : Collection) : Collection :=
  let endD :=
    match endDate with
    | some e => if e = [] then isoStr nowSec else e
    | none => isoStr nowSec
  collGetWhere coll [(eventTimeKey, { gte := some startDate, lte := some endD })] (some limit)

/-- Sort key of timeframe retrieval (`metadata.get("event_time", "")`). -/
def evtKey (r : Record) : Str := mdGetStrD r.md eventTimeKey []

/-- The ascending `event_time` order used by `memories.sort(key=...)`. -/
def timeframeAscRel (a b : Record) : Prop := strLe (evtKey a) (evtKey b) = true

instance : DecidableRel timeframeAscRel := fun a b =>
  inferInstanceAs (Decidable (strLe (evtKey a) (evtKey b) = true))

/-- Embedding of `episodic.retrieve_by_timeframe`: timeframe-filtered records sorted by
`event_time` ascending (the stable `list.sort` with no `reverse` flag). -/
def retrieve_by_timeframe (nowSec : Int) (startDate : Str) (endDate : Option Str)
    (limit : Nat) (coll : Collection) : Collection :=
  List.insertionSort timeframeAscRel
    (retrieve_by_timeframe_items nowSec startDate endDate limit coll)

/-! ## Reflective memory layer (`reflective.py`) -/

/-- The four labelled sections of the reflection micro-format. -/
inductive SecName where
  | refl
  | evid
  | impl
  | tagsSec
deriving DecidableEq

/-- The section buffers collected while scanning one response chunk
(the Python `sections` dict, keyed by lowercased header). -/
structure Sections where
  reflection : Option Str := none
  evidence : Option Str := none
  implications : Option Str := none
  tagsText : Option Str := none
deriving DecidableEq

/-- Store a finished section's text. -/
def secSet (s : Sections) : SecName → Str → Sections
  | .refl, v => { s with reflection := some v }
  | .evid, v => { s with evidence := some v }
  | .impl, v => { s with implications := some v }
  | .tagsSec, v => { s with tagsText := some v }

/-- Recognize a line that is exactly one of the four section headers. -/
def headerOf? (line : Str) : Option SecName :=
  if line = chars ("REFLECTION:") then some SecName.refl
  else if line = chars ("EVIDENCE:") then some SecName.evid
  else if line = chars ("IMPLICATIONS:") then some SecName.impl
  else if line = chars ("TAGS:") then some SecName.tagsSec
  else none

/-- State of the line scanner: finished sections, the current section, and
the buffered lines of the current section. -/
structure ScanSt where
  secs : Sections
  cur : Option SecName
  buf : List Str
deriving DecidableEq

/-- One step of the line scanner on an already-stripped line: blank lines
are skipped, a header flushes the current section (even when its buffer is
empty) and starts a new one, any other line joins the current section;
lines before the first header are dropped. -/
def stepTrimmed (st : ScanSt) (line : Str) : ScanSt :=
  if line = [] then st
  else
    match headerOf? line with
    | some h =>
      let secs :=
        match st.cur with
        | some c => secSet st.secs c (joinL (['\n']) st.buf)
        | none => st.secs
      { secs := secs, cur := some h, buf := [] }
    | none =>
      match st.cur with
      | some _ => { st with buf := st.buf ++ [line] }
      | none => st

/-- Scan one `---`-chunk into its sections; the trailing section is flushed
only when it has buffered content. -/
def scanChunk (chunk : Str) : Sections :=
  let st := (splitOnL chunk (['\n'])).foldl
    (fun st l => stepTrimmed st (trimL l)) ⟨{}, none, []⟩
  match st.cur with
  | some c => if st.buf ≠ [] then secSet st.secs c (joinL (['\n']) st.buf) else st.secs
  | none => st.secs

/-- A parsed reflection before storage. -/
structure ParsedReflection where
  content : Str
  sourceMemoryIds : List Str
  tags : List Str
deriving DecidableEq

/-- Turn one chunk into a reflection, or discard it silently when it has no
`REFLECTION` section; evidence and implications are appended to the content,
tags are comma-split, trimmed, with empties dropped. -/
def chunkReflection? (memoryIds : List Str) (chunk : Str) : Option ParsedReflection :=
  let secs := scanChunk chunk
  match secs.reflection with
  | none => none
  | some rtext =>
    let content := rtext
    let content :=
      match secs.evidence with
      | some e => content ++ chars ("\n\nEvidence:\n") ++ e
      | none => content
    let content :=
      match secs.implications with
      | some i => content ++ chars ("\n\nImplications:\n") ++ i
      | none => content
    let tags :=
      match secs.tagsText with
      | some t => ((splitOnL t ([','])).map trimL).filter (fun x => x ≠ [])
      | none => []
    some { content := content, sourceMemoryIds := memoryIds, tags := tags }

/-- The usable reflections parsed out of a raw response: split on `---`,
skip blank chunks, keep every chunk with a `REFLECTION` section. -/
def parsedChunks (resp : Str) (memoryIds : List Str) : List ParsedReflection :=
  (splitOnL resp (chars ("---"))).foldl
    (fun acc raw =>
      if trimL raw = [] then acc
      else
        match chunkReflection? memoryIds raw with
        | none => acc
        | some r => acc ++ [r]) []

/-- The default reflection substituted when parsing found nothing usable. -/
def noPatternReflection (memoryIds : List Str) : ParsedReflection :=
  { content := chars ("Reflection generated from analyzing recent memories. No specific patterns identified."),
    sourceMemoryIds := memoryIds,
    tags := [chars ("general"), chars ("reflection")] }

/-- Embedding of `reflective._parse_reflection_response`: parsed reflections, or the
single default reflection when none parsed. -/
def parse_reflection_response (resp : Str) (memoryIds : List Str) :
    List ParsedReflection :=
  let reflections := parsedChunks resp memoryIds
  if reflections = [] then [noPatternReflection memoryIds] else reflections

/-- A sampled source memory tagged with its origin layer. -/
structure SourceMem where
  rid : Str
  content : Str
  md : Metadata
  memoryType : Str
  relevance : Option Rat := none
deriving DecidableEq

/-- Insert a memory into the by-type groups (Python `dict` of lists,
insertion-ordered by first occurrence of each type). -/
def groupAdd (gs : List (Str × List SourceMem)) (m : SourceMem) :
    List (Str × List SourceMem) :=
  if gs.any (fun g => g.1 = m.memoryType) then
    gs.map (fun g => if g.1 = m.memoryType then (g.1, g.2 ++ [m]) else g)
  else
    gs ++ [(m.memoryType, [m])]

/-- Embedding of `memories_by_type`: group the sampled memories by origin layer. -/
def groupByType (ms : List SourceMem) : List (Str × List SourceMem) :=
  ms.foldl groupAdd []

/-- Embedding of `memory_ids`: the id list collected while rendering the prompt, i.e. the
sampled ids in grouped-by-layer order. -/
def groupedIds (ms : List SourceMem) : List Str :=
  ((groupByType ms).map (fun g => g.2.map SourceMem.rid)).flatten

/-- The single reflection emitted when the completion call raised. -/
def errorReflection (e : PyErr) (memoryIds : List Str) : ParsedReflection :=
  { content := chars ("Error generating reflections: ") ++ e.msg,
    sourceMemoryIds := memoryIds,
    tags := [chars ("error"), chars ("reflection_generation")] }

/-- Embedding of `reflective._generate_reflections_with_llm`: ask the completion
capability (its outcome is the `llm` argument) and parse the answer; any
exception becomes the single error reflection — nothing propagates. -/
def generate_reflections_with_llm (llm : PyResult Str) (sources : List SourceMem) :
    List ParsedReflection :=
  let memoryIds := groupedIds sources
  match llm with
  | .raised e => [errorReflection e memoryIds]
  | .ok resp => parse_reflection_response resp memoryIds

/-- Embedding of `reflective.store_reflection`: standard metadata; `source_memories` is
JSON-encoded when non-empty, tags are comma-joined when non-empty. -/
def store_reflection (timestamp : Str) (reflectionId : Str) (content : Str)
    (sourceMemories : List Str) (metadata : Metadata) (tags : List Str)
    (coll : Collection) : Str × Collection :=
  let md := dictUpdate metadata
    [(memoryTypeKey, MetaVal.s (chars ("reflective"))),
     (createdAtKey, MetaVal.s timestamp),
     (updatedAtKey, MetaVal.s timestamp)]
  let md :=
    if sourceMemories ≠ [] then
      alistSet md sourceMemoriesKey (MetaVal.s (encodeStrList sourceMemories))
    else md
  let md := if tags ≠ [] then alistSet md tagsKey (MetaVal.s (joinL (chars (", ")) tags)) else md
  (reflectionId, collAdd coll { rid := reflectionId, content := content, md := md })

/-- A retrieved reflection (`{id, content, metadata, relevance,
source_memories?}`). -/
structure ReflItem where
  rid : Str
  content : Str
  md : Metadata
  relevance : Rat
  sourceMemories : Option (List Str)
deriving DecidableEq

/-- Embedding of `reflective.retrieve_reflections`: similarity query over reflections
bounded by the optional `time_range` filter on `created_at`. -/
def retrieve_reflections (rank : RankFn) (nowSec : Int) (q : Str) (limit : Nat)
    (timeRange : Option Str) (coll : Collection) : PyResult (List ReflItem) :=
  match timeFilterOn createdAtKey nowSec timeRange with
  | .raised e => .raised e
  | .ok w =>
    .ok ((collQuery rank coll q limit w).map (fun p =>
      let sm :=
        match alistGet? p.1.md sourceMemoriesKey with
        | some (MetaVal.s v) => decodeStrList v
        | _ => none
      { rid := p.1.rid, content := p.1.content, md := p.1.md,
        relevance := 1 - min p.2 1, sourceMemories := sm }))

/-- Python truthiness of an optional string argument. -/
def qTruthy : Option Str → Bool
  | some q => q ≠ []
  | none => false

/-- Python truthiness of an optional list argument. -/
def tagsTruthy : Option (List Str) → Bool
  | some ts => ts ≠ []
  | none => false

/-- Lift a query-branch retrieval result into a tagged source memory. -/
def retItemToSource (t : Str) (it : RetItem) : SourceMem :=
  { rid := it.rid, content := it.content, md := it.md, memoryType := t,
    relevance := some it.relevance }

/-- Lift a raw record into a tagged source memory. -/
def recordToSource (t : Str) (r : Record) : SourceMem :=
  { rid := r.rid, content := r.content, md := r.md, memoryType := t,
    relevance := none }

/-- Embedding of `procedural.retrieve_memories` has the same query shape as the semantic
layer (similarity query, formatted results). -/
def procedural_retrieve_memories (rank : RankFn) (q : Str) (limit : Nat)
    (coll : Collection) : List RetItem :=
  (collQuery rank coll q limit none).map toRetItem

/-- Query branch of reflection sampling: each of the three layers is asked
for `max_memories // 3` matches of the query, episodic bounded by the
optional `time_range`. -/
def reflectionQueryBranch (rankE rankS rankP : RankFn) (nowSec : Int) (q : Str)
    (timeRange : Option Str) (maxMemories : Nat)
    (collE collS collP : Collection) : PyResult (List SourceMem) :=
  match episodic_retrieve_memories rankE nowSec q (maxMemories / 3) timeRange collE with
  | .raised e => .raised e
  | .ok epi =>
    let sem := semantic_retrieve_memories rankS q (maxMemories / 3) collS
    let proc := procedural_retrieve_memories rankP q (maxMemories / 3) collP
    .ok (epi.map (retItemToSource (chars ("episodic")))
      ++ sem.map (retItemToSource (chars ("semantic")))
      ++ proc.map (retItemToSource (chars ("procedural"))))

/-- The `where` clause of the tags branch for one layer: the loop writes
every requested tag to the same `"tags"` key, so each assignment overwrites
the previous one; then the optional time bound is added on the layer's
temporal field. -/
def tagsBranchWhere (nowSec : Int) (tags : List Str) (timeRange : Option Str)
    (timeKey : Str) : PyResult WhereClause :=
  let w := tags.foldl
    (fun w t => alistSet w tagsKey ({ containsTag := some t } : Cond))
    ([] : WhereClause)
  match timeRange with
  | none => .ok w
  | some tr =>
    if tr = [] then .ok w
    else
      match timeRangeStartDate nowSec tr with
      | .ok start => .ok (alistSet w timeKey ({ gte := some start } : Cond))
      | .raised e => .raised e

/-- Tags branch of reflection sampling, one layer: fetch up to
`max_memories // 3` records matching the built `where` clause. -/
def tagsBranchLayer (nowSec : Int) (tags : List Str) (timeRange : Option Str)
    (memType : Str) (timeKey : Str) (lim : Nat) (coll : Collection) :
    PyResult (List SourceMem) :=
  match tagsBranchWhere nowSec tags timeRange timeKey with
  | .raised e => .raised e
  | .ok w => .ok ((collGetWhere coll w (some lim)).map (recordToSource memType))

/-- Tags branch of reflection sampling across the three layers. -/
def reflectionTagsBranch (nowSec : Int) (tags : List Str) (timeRange : Option Str)
    (maxMemories : Nat) (collE collS collP : Collection) :
    PyResult (List SourceMem) :=
  match tagsBranchLayer nowSec tags timeRange (chars ("episodic")) eventTimeKey
      (maxMemories / 3) collE with
  | .raised e => .raised e
  | .ok ep =>
    match tagsBranchLayer nowSec tags timeRange (chars ("semantic")) createdAtKey
        (maxMemories / 3) collS with
    | .raised e => .raised e
    | .ok sm =>
      match tagsBranchLayer nowSec tags timeRange (chars ("procedural")) createdAtKey
          (maxMemories / 3) collP with
      | .raised e => .raised e
      | .ok pr => .ok (ep ++ sm ++ pr)

/-- Recency fallback branch of reflection sampling: last 7 days of episodic
records by timeframe plus an unfiltered sample of semantic and procedural
records. -/
def reflectionRecencyBranch (nowSec : Int) (maxMemories : Nat)
    (collE collS collP : Collection) : List SourceMem :=
  let epi := retrieve_by_timeframe nowSec (isoStr (nowSec - 7 * secPerDay)) none
    (maxMemories / 2) collE
  epi.map (recordToSource (chars ("episodic")))
    ++ (collGetWhere collS [] (some (maxMemories / 4))).map (recordToSource (chars ("semantic")))
    ++ (collGetWhere collP [] (some (maxMemories / 4))).map (recordToSource (chars ("procedural")))

/-- Embedding of `reflective._get_memories_for_reflection`: the three mutually exclusive
sampling branches, then truncation of the collected candidates to
`max_memories` in collection order. -/
def get_memories_for_reflection (rankE rankS rankP : RankFn) (nowSec : Int)
    (query timeRange : Option Str) (tags : Option (List Str))
    (maxMemories : Nat) (collE collS collP : Collection) :
    PyResult (List SourceMem) :=
  let branch : PyResult (List SourceMem) :=
    if qTruthy query then
      reflectionQueryBranch rankE rankS rankP nowSec (query.getD []) timeRange
        maxMemories collE collS collP
    else if tagsTruthy tags then
      reflectionTagsBranch nowSec (tags.getD []) timeRange maxMemories
        collE collS collP
    else
      .ok (reflectionRecencyBranch nowSec maxMemories collE collS collP)
  match branch with
  | .raised e => .raised e
  | .ok allMemories => .ok (allMemories.take maxMemories)

/-- A stored reflection as returned by `generate_reflections` (the parsed
reflection with its new id attached). -/
structure StoredReflection where
  reflectionId : Str
  content : Str
  sourceMemoryIds : List Str
  tags : List Str
deriving DecidableEq

/-- The storage loop of `generate_reflections`: each parsed reflection is
written through `store_reflection` with the query recorded in metadata and
the caller-supplied tags appended. -/
def store_reflections_loop (timestamp : Str) (idFn : Nat → Str)
    (query : Option Str) (callerTags : Option (List Str))
    (rs : List ParsedReflection) (coll : Collection) :
    List StoredReflection × Collection :=
  (rs.enum).foldl
    (fun acc p =>
      let mdArg : Metadata :=
        match query with
        | some q => if q = [] then [] else [(queryKey, MetaVal.s q)]
        | none => []
      let sr := store_reflection timestamp (idFn p.1) p.2.content
        p.2.sourceMemoryIds mdArg (p.2.tags ++ callerTags.getD []) acc.2
      (acc.1 ++ [{ reflectionId := sr.1, content := p.2.content,
                   sourceMemoryIds := p.2.sourceMemoryIds, tags := p.2.tags }],
       sr.2))
    ([], coll)

/-- Embedding of `reflective.generate_reflections`: sample sources, short-circuit on an
empty candidate set, otherwise generate via the completion capability and
store each result.  The final `Bool` records whether the completion
capability was invoked. -/
def generate_reflections (rankE rankS rankP : RankFn) (nowSec : Int)
    (llm : PyResult Str) (timestamp : Str) (idFn : Nat → Str)
    (query timeRange : Option Str) (tags : Option (List Str))
    (maxMemories : Nat) (collE collS collP collR : Collection) :
    PyResult (List StoredReflection × Collection × Bool) :=
  match get_memories_for_reflection rankE rankS rankP nowSec query timeRange tags
      maxMemories collE collS collP with
  | .raised e => .raised e
  | .ok sources =>
    if sources = [] then .ok ([], collR, false)
    else
      let results := generate_reflections_with_llm llm sources
      let sc := store_reflections_loop timestamp idFn query tags results collR
      .ok (sc.1, sc.2, true)

/-! ## Meta memory layer (`meta.py`) -/

/-- The per-layer result dict of `prune_old_memories`. -/
inductive PruneReport where
  | success (countBefore countAfter deleted : Nat)
  | dryRunReport (count toDelete : Nat)
deriving DecidableEq

/-- The per-collection body of `meta.prune_old_memories`: select records
with `created_at` strictly older than the cutoff, delete them unless
`dry_run` (or nothing is old), and report. -/
def prune_collection (cutoff : Str) (dryRun : Bool) (coll : Collection) :
    PruneReport × Collection :=
  let countBefore := coll.length
  let old := collGetWhere coll [(createdAtKey, { lt := some cutoff })] none
  let oldCount := old.length
  if !dryRun && decide (0 < oldCount) then
    let coll' := collDelete coll (old.map Record.rid)
    (PruneReport.success countBefore coll'.length oldCount, coll')
  else
    (PruneReport.dryRunReport countBefore oldCount, coll)

/-- The memory types known to `meta.MEMORY_MODULES`. -/
def memoryModuleKeys : List Str :=
  [chars ("semantic"), chars ("episodic"), chars ("procedural"),
   chars ("reflective"), chars ("affective"), chars ("identity")]

/-- A node of the memory graph. -/
structure GNode where
  nid : Str
  label : Str
  ntype : Str
  createdAt : Str
deriving DecidableEq

/-- A provenance edge of the memory graph. -/
structure GEdge where
  source : Str
  target : Str
deriving DecidableEq

/-- A node label: the record's title when present, else an abbreviation of
the layer and id. -/
def nodeLabel (memType : Str) (memoryId : Str) (md : Metadata) : Str :=
  match alistGet? md titleKey with
  | some (MetaVal.s t) => t
  | _ => memType.take 3 ++ ['-'] ++ memoryId.take 8

/-- Node-collection step of `generate_memory_graph` for one requested type:
unknown types and absent collections are skipped, and a record whose id was
already seen produces no second node. -/
def graphAddNodes (layers : List (Str × Collection)) (maxItems : Nat)
    (st : List GNode × List Str) (memType : Str) : List GNode × List Str :=
  if !(memoryModuleKeys.contains memType) then st
  else
    match alistGet? layers memType with
    | none => st
    | some coll =>
      (coll.take maxItems).foldl
        (fun st r =>
          if st.2.contains r.rid then st
          else
            (st.1 ++ [{ nid := r.rid, label := nodeLabel memType r.rid r.md,
                        ntype := memType, createdAt := mdGetStrD r.md createdAtKey [] }],
             st.2 ++ [r.rid]))
        st

/-- The node phase of `generate_memory_graph`. -/
def graphNodesState (layers : List (Str × Collection)) (memTypes : List Str)
    (maxItems : Nat) : List GNode × List Str :=
  memTypes.foldl (graphAddNodes layers maxItems) ([], [])

/-- Edge-collection step of `generate_memory_graph`: only the reflective
layer contributes; each decodable `source_memories` entry yields an edge
when both endpoints are known nodes and the edge is new. -/
def graphEdgesFor (layers : List (Str × Collection)) (maxItems : Nat)
    (nodeIds : List Str) (st : List GEdge × List (Str × Str)) (memType : Str) :
    List GEdge × List (Str × Str) :=
  if memType ≠ chars ("reflective") then st
  else
    match alistGet? layers (chars ("reflective")) with
    | none => st
    | some coll =>
      (coll.take maxItems).foldl
        (fun st r =>
          match alistGet? r.md sourceMemoriesKey with
          | some (MetaVal.s sm) =>
            match decodeStrList sm with
            | some sourceIds =>
              sourceIds.foldl
                (fun st sid =>
                  if nodeIds.contains sid && nodeIds.contains r.rid then
                    if st.2.contains (sid, r.rid) then st
                    else (st.1 ++ [{ source := sid, target := r.rid }],
                          st.2 ++ [(sid, r.rid)])
                  else st)
                st
            | none => st
          | _ => st)
        st

/-- The produced memory graph. -/
structure Graph where
  nodes : List GNode
  edges : List GEdge
deriving DecidableEq

/-- Embedding of `meta.generate_memory_graph`: one node per record (deduplicated by id
across the requested layers), then provenance edges from the reflective
layer's `source_memories` lists. -/
def generate_memory_graph (layers : List (Str × Collection))
    (memoryTypes : Option (List Str)) (maxItems : Nat) : Graph :=
  let memTypes :=
    match memoryTypes with
    | some ts => if ts = [] then memoryModuleKeys else ts
    | none => memoryModuleKeys
  let ns := graphNodesState layers memTypes maxItems
  let es := memTypes.foldl (graphEdgesFor layers maxItems ns.2) ([], [])
  { nodes := ns.1, edges := es.1 }

/-- Key for the affective intensity score. -/
def intensityKey : Str := chars ("intensity")

/-- The pruning predicate: `created_at` strictly older than the cutoff. -/
def isOld (cutoff : Str) (r : Record) : Bool :=
  evalCond r.md createdAtKey { lt := some cutoff }

/-! ## General lemmas about the embedding -/


theorem alistGet?_cons_pos {β : Type} (p : Str × β) (m : List (Str × β)) (k : Str)
    (h : p.1 = k) : alistGet? (p :: m) k = some p.2 := by
  rw [alistGet?, List.find?_cons_of_pos _ (by simpa using h)]
  rfl

theorem alistGet?_cons_neg {β : Type} (p : Str × β) (m : List (Str × β)) (k : Str)
    (h : ¬(p.1 = k)) : alistGet? (p :: m) k = alistGet? m k := by
  rw [alistGet?, List.find?_cons_of_neg _ (by simpa using h)]
  rfl

theorem any_cons_elim {β : Type} {p : Str × β} {m : List (Str × β)} {k : Str}
    (h : (p :: m).any (fun q => q.1 = k) = true) (hp : ¬(p.1 = k)) :
    m.any (fun q => q.1 = k) = true := by
  rw [List.any_cons] at h
  cases (Bool.or_eq_true _ _).mp h with
  | inl hl => exact absurd (of_decide_eq_true hl) hp
  | inr hr => exact hr

theorem any_cons_false_elim {β : Type} {p : Str × β} {m : List (Str × β)} {k : Str}
    (h : (p :: m).any (fun q => q.1 = k) = false) :
    ¬(p.1 = k) ∧ m.any (fun q => q.1 = k) = false := by
  rw [List.any_cons] at h
  rcases Bool.or_eq_false_iff.mp h with ⟨h1, h2⟩
  exact ⟨fun hh => by simp [hh] at h1, h2⟩

theorem alistGet?_map_set_self {β : Type} [DecidableEq β]
    (m : List (Str × β)) (k : Str) (v : β)
    (h : m.any (fun p => p.1 = k) = true) :
    alistGet? (m.map (fun p => if p.1 = k then (k, v) else p)) k = some v := by
  induction m with
  | nil => simp at h
  | cons p m ih =>
    by_cases hp : p.1 = k
    · rw [List.map_cons, if_pos hp, alistGet?_cons_pos _ _ _ rfl]
    · rw [List.map_cons, if_neg hp, alistGet?_cons_neg _ _ _ hp]
      exact ih (any_cons_elim h hp)

theorem alistGet?_append_single_self {β : Type} [DecidableEq β]
    (m : List (Str × β)) (k : Str) (v : β)
    (h : m.any (fun p => p.1 = k) = false) :
    alistGet? (m ++ [(k, v)]) k = some v := by
  induction m with
  | nil => exact alistGet?_cons_pos _ _ _ rfl
  | cons p m ih =>
    rcases any_cons_false_elim h with ⟨hp, h'⟩
    rw [List.cons_append, alistGet?_cons_neg _ _ _ hp]
    exact ih h'

theorem alistGet?_alistSet_self {β : Type} [DecidableEq β]
    (m : List (Str × β)) (k : Str) (v : β) :
    alistGet? (alistSet m k v) k = some v := by
  unfold alistSet
  cases hb : m.any (fun p => p.1 = k) with
  | true =>
    rw [if_pos rfl]
    exact alistGet?_map_set_self m k v hb
  | false =>
    rw [if_neg Bool.false_ne_true]
    exact alistGet?_append_single_self m k v hb

theorem alistGet?_map_set_ne {β : Type} [DecidableEq β]
    (m : List (Str × β)) (k k' : Str) (v : β) (h : k' ≠ k) :
    alistGet? (m.map (fun p => if p.1 = k then (k, v) else p)) k' = alistGet? m k' := by
  induction m with
  | nil => rfl
  | cons p m ih =>
    by_cases hp : p.1 = k
    · have hk : ¬((k, v).1 = k') := fun hh => h hh.symm
      have hk2 : ¬(p.1 = k') := by
        rw [hp]
        exact fun hh => h hh.symm
      rw [List.map_cons, if_pos hp, alistGet?_cons_neg _ _ _ hk,
        alistGet?_cons_neg _ _ _ hk2]
      exact ih
    · by_cases hk : p.1 = k'
      · rw [List.map_cons, if_neg hp, alistGet?_cons_pos _ _ _ hk,
          alistGet?_cons_pos _ _ _ hk]
      · rw [List.map_cons, if_neg hp, alistGet?_cons_neg _ _ _ hk,
          alistGet?_cons_neg _ _ _ hk]
        exact ih

theorem alistGet?_append_single_ne {β : Type} [DecidableEq β]
    (m : List (Str × β)) (k k' : Str) (v : β) (h : k' ≠ k) :
    alistGet? (m ++ [(k, v)]) k' = alistGet? m k' := by
  induction m with
  | nil => exact alistGet?_cons_neg _ _ _ (fun hh => h hh.symm)
  | cons p m ih =>
    by_cases hk : p.1 = k'
    · rw [List.cons_append, alistGet?_cons_pos _ _ _ hk, alistGet?_cons_pos _ _ _ hk]
    · rw [List.cons_append, alistGet?_cons_neg _ _ _ hk, alistGet?_cons_neg _ _ _ hk]
      exact ih

theorem alistGet?_alistSet_ne {β : Type} [DecidableEq β]
    (m : List (Str × β)) (k k' : Str) (v : β) (h : k' ≠ k) :
    alistGet? (alistSet m k v) k' = alistGet? m k' := by
  unfold alistSet
  cases hb : m.any (fun p => p.1 = k) with
  | true =>
    rw [if_pos rfl]
    exact alistGet?_map_set_ne m k k' v h
  | false =>
    rw [if_neg Bool.false_ne_true]
    exact alistGet?_append_single_ne m k k' v h

theorem strLe_refl (a : Str) : strLe a a = true := by
  induction a with
  | nil => rfl
  | cons x as ih => simpa [strLe] using ih

theorem strLe_total (a b : Str) : strLe a b = true ∨ strLe b a = true := by
  induction a generalizing b with
  | nil => left; rfl
  | cons x as ih =>
    cases b with
    | nil => right; rfl
    | cons y bs =>
      by_cases hxy : x = y
      · subst hxy
        simpa [strLe] using ih bs
      · rcases lt_or_gt_of_ne hxy with h | h
        · left
          simp [strLe, hxy, h]
        · right
          simp [strLe, Ne.symm hxy, h]

theorem strLe_trans (a b c : Str) (h1 : strLe a b = true) (h2 : strLe b c = true) :
    strLe a c = true := by
  induction a generalizing b c with
  | nil => rfl
  | cons x as ih =>
    cases b with
    | nil => simp [strLe] at h1
    | cons y bs =>
      cases c with
      | nil => simp [strLe] at h2
      | cons z cs =>
        by_cases hxy : x = y <;> by_cases hyz : y = z
        · subst hxy; subst hyz
          simp only [strLe, if_pos rfl] at h1 h2 ⊢
          exact ih bs cs h1 h2
        · subst hxy
          simp only [strLe, if_pos rfl, if_neg hyz] at h2 ⊢
          simpa [strLe, hyz] using h2
        · subst hyz
          simpa [strLe, hxy] using h1
        · simp only [strLe, if_neg hxy, if_neg hyz] at h1 h2
          have hxz : x < z := lt_trans (of_decide_eq_true h1) (of_decide_eq_true h2)
          simp [strLe, ne_of_lt hxz, hxz]

instance : IsTotal Record timeframeAscRel :=
  ⟨fun a b => strLe_total (evtKey a) (evtKey b)⟩

instance : IsTrans Record timeframeAscRel :=
  ⟨fun a b c h1 h2 => strLe_trans (evtKey a) (evtKey b) (evtKey c) h1 h2⟩

instance : IsTotal AffectItem feedDescRel :=
  ⟨fun a b => strLe_total (feedKey b) (feedKey a)⟩

instance : IsTrans AffectItem feedDescRel :=
  ⟨fun a b c h1 h2 => strLe_trans (feedKey c) (feedKey b) (feedKey a) h2 h1⟩

/-- The flattened id list of the by-type groups. -/
def flatIds (gs : List (Str × List SourceMem)) : List Str :=
  (gs.map (fun g => g.2.map SourceMem.rid)).flatten

theorem flatIds_cons (g : Str × List SourceMem) (gs : List (Str × List SourceMem)) :
    flatIds (g :: gs) = g.2.map SourceMem.rid ++ flatIds gs := rfl

theorem perm_append_singleton_mid (a b : List Str) (x : Str) :
    List.Perm ((a ++ [x]) ++ b) ((a ++ b) ++ [x]) := by
  have h1 : (a ++ [x]) ++ b = a ++ ([x] ++ b) := by rw [List.append_assoc]
  have h2 : List.Perm (a ++ ([x] ++ b)) (a ++ (b ++ [x])) :=
    List.Perm.append_left a List.perm_append_comm
  rw [h1, ← List.append_assoc a b [x]] at *
  exact h2

theorem flatIds_map_add (gs : List (Str × List SourceMem)) (m : SourceMem)
    (hb : gs.any (fun g => g.1 = m.memoryType) = true)
    (hnd : (gs.map (fun g => g.1)).Nodup) :
    List.Perm
      (flatIds (gs.map (fun g => if g.1 = m.memoryType then (g.1, g.2 ++ [m]) else g)))
      (flatIds gs ++ [m.rid]) := by
  induction gs with
  | nil => simp at hb
  | cons g gs ih =>
    by_cases hg : g.1 = m.memoryType
    · have htail : ∀ g' ∈ gs, ¬(g'.1 = m.memoryType) := by
        intro g' hmem heq
        have : g.1 ∈ gs.map (fun g => g.1) :=
          List.mem_map.mpr ⟨g', hmem, by rw [heq, ← hg]⟩
        exact (List.nodup_cons.mp hnd).1 this
      have tailid :
          gs.map (fun g => if g.1 = m.memoryType then (g.1, g.2 ++ [m]) else g) = gs := by
        calc gs.map (fun g => if g.1 = m.memoryType then (g.1, g.2 ++ [m]) else g)
            = gs.map id := List.map_congr_left (fun a ha => by rw [if_neg (htail a ha)]; rfl)
        _ = gs := List.map_id gs
      rw [List.map_cons, if_pos hg, tailid, flatIds_cons, flatIds_cons]
      have : (g.2 ++ [m]).map SourceMem.rid = g.2.map SourceMem.rid ++ [m.rid] := by
        rw [List.map_append]
        rfl
      rw [this]
      exact perm_append_singleton_mid (g.2.map SourceMem.rid) (flatIds gs) m.rid
    · have hb' : gs.any (fun g => g.1 = m.memoryType) = true := by
        rw [List.any_cons] at hb
        cases (Bool.or_eq_true _ _).mp hb with
        | inl hl => exact absurd (of_decide_eq_true hl) hg
        | inr hr => exact hr
      have hnd' := (List.nodup_cons.mp hnd).2
      rw [List.map_cons, if_neg hg, flatIds_cons, flatIds_cons]
      have step : List.Perm
          (g.2.map SourceMem.rid
            ++ flatIds (gs.map (fun g => if g.1 = m.memoryType then (g.1, g.2 ++ [m]) else g)))
          (g.2.map SourceMem.rid ++ (flatIds gs ++ [m.rid])) :=
        List.Perm.append_left _ (ih hb' hnd')
      rw [← List.append_assoc] at step
      exact step

theorem groupAdd_names (gs : List (Str × List SourceMem)) (m : SourceMem)
    (hnd : (gs.map (fun g => g.1)).Nodup) :
    ((groupAdd gs m).map (fun g => g.1)).Nodup := by
  unfold groupAdd
  cases hb : gs.any (fun g => g.1 = m.memoryType) with
  | true =>
    rw [if_pos rfl]
    have : (gs.map (fun g => if g.1 = m.memoryType then (g.1, g.2 ++ [m]) else g)).map
        (fun g => g.1) = gs.map (fun g => g.1) := by
      rw [List.map_map]
      exact List.map_congr_left (fun a _ => by by_cases ha : a.1 = m.memoryType <;> simp [ha])
    rw [this]
    exact hnd
  | false =>
    rw [if_neg Bool.false_ne_true, List.map_append]
    rw [List.nodup_append]
    refine ⟨hnd, List.nodup_singleton _, ?_⟩
    intro x hx hx'
    have hxm : x = m.memoryType := by simpa using hx'
    rcases List.mem_map.mp hx with ⟨g, hg, hg1⟩
    have : gs.any (fun g => g.1 = m.memoryType) = true :=
      List.any_eq_true.mpr ⟨g, hg, by simpa [hg1] using hxm⟩
    rw [hb] at this
    exact Bool.false_ne_true this

theorem flatIds_groupAdd (gs : List (Str × List SourceMem)) (m : SourceMem)
    (hnd : (gs.map (fun g => g.1)).Nodup) :
    List.Perm (flatIds (groupAdd gs m)) (flatIds gs ++ [m.rid]) := by
  unfold groupAdd
  cases hb : gs.any (fun g => g.1 = m.memoryType) with
  | true =>
    rw [if_pos rfl]
    exact flatIds_map_add gs m hb hnd
  | false =>
    rw [if_neg Bool.false_ne_true]
    unfold flatIds
    rw [List.map_append, List.flatten_append]
    simp

theorem flatIds_foldl (ms : List SourceMem) (gs : List (Str × List SourceMem))
    (hnd : (gs.map (fun g => g.1)).Nodup) :
    List.Perm (flatIds (ms.foldl groupAdd gs)) (flatIds gs ++ ms.map SourceMem.rid) := by
  induction ms generalizing gs with
  | nil => simp
  | cons m ms ih =>
    rw [List.foldl_cons]
    have s1 := ih (groupAdd gs m) (groupAdd_names gs m hnd)
    have s2 : List.Perm (flatIds (groupAdd gs m) ++ ms.map SourceMem.rid)
        ((flatIds gs ++ [m.rid]) ++ ms.map SourceMem.rid) :=
      List.Perm.append_right _ (flatIds_groupAdd gs m hnd)
    have s3 : (flatIds gs ++ [m.rid]) ++ ms.map SourceMem.rid
        = flatIds gs ++ (m :: ms).map SourceMem.rid := by
      rw [List.append_assoc]
      rfl
    rw [s3] at s2
    exact s1.trans s2

theorem groupedIds_perm (ms : List SourceMem) :
    List.Perm (groupedIds ms) (ms.map SourceMem.rid) := by
  have := flatIds_foldl ms [] (by simp)
  simpa [groupedIds, groupByType, flatIds] using this

theorem alistGet?_ite_set (cond : Prop) [Decidable cond] (m : Metadata)
    (k k' : Str) (v : MetaVal) (h : k' ≠ k) (w : Option MetaVal)
    (hm : alistGet? m k' = w) :
    alistGet? (if cond then alistSet m k v else m) k' = w := by
  split
  · rw [alistGet?_alistSet_ne _ _ _ _ h]
    exact hm
  · exact hm

/-! ## Claim C1 -/

/-- Claim C1, counterexample: `tag_content` stores the caller's valence and
intensity metadata verbatim; storing valence `5.0` (with caller intensity
`50`) yields stored valence `5.0` and intensity `50`, both out of range, not
the clamped values the claim asserts. -/
theorem tag_content_unclamped_counterexample :
    ((tag_content (chars ("2024")) (chars ("a1")) (chars ("doc")) [] 5
        [(intensityKey, MetaVal.int 50)] none []).2.map
      (fun r => (alistGet? r.md valenceKey, alistGet? r.md intensityKey)))
      = [(some (MetaVal.num 5), some (MetaVal.int 50))]
    ∧ ¬((5 : Rat) ≤ 1) ∧ ¬((50 : Int) ≤ 10) := by
  decide

/-- Claim C1, amended: the affective store operation `tag_content` stores
the caller's valence unclamped (only converted to float) and applies no
intensity handling at all, while the affective update operation
`update_affect` does clamp a provided valence into `[-1.0, 1.0]`. -/
theorem affective_clamp_amended
    (ts aid c : Str) (tg : List Str) (v : Rat) (md0 : Metadata) (src : Option Str)
    (coll : Collection) (nowTs uid : Str) (uc : Option Str)
    (utags : Option (List Str)) (uv : Rat) (umd : Option Metadata)
    (ucoll : Collection) (r0 : Record)
    (hfound : collGetById ucoll uid = some r0) :
    (∃ rec : Record, (tag_content ts aid c tg v md0 src coll).2 = coll ++ [rec]
        ∧ alistGet? rec.md valenceKey = some (MetaVal.num v))
    ∧ (update_affect nowTs uid uc utags (some uv) umd ucoll).1 = true
    ∧ (∀ rec ∈ (update_affect nowTs uid uc utags (some uv) umd ucoll).2,
        rec.rid = uid →
        alistGet? rec.md valenceKey = some (MetaVal.num (max (-1 : Rat) (min 1 uv)))
          ∧ (-1 : Rat) ≤ max (-1 : Rat) (min 1 uv) ∧ max (-1 : Rat) (min 1 uv) ≤ 1) := by
  have hvt : valenceKey ≠ tagsKey := by decide
  have hvs : valenceKey ≠ sourceKey := by decide
  have hvu : valenceKey ≠ updatedAtKey := by decide
  refine ⟨?_, ?_, ?_⟩
  · simp only [tag_content, collAdd]
    refine ⟨_, rfl, ?_⟩
    have base : alistGet? (dictUpdate md0
        [(memoryTypeKey, MetaVal.s (chars ("affective"))),
         (createdAtKey, MetaVal.s ts),
         (updatedAtKey, MetaVal.s ts),
         (valenceKey, MetaVal.num v)]) valenceKey = some (MetaVal.num v) := by
      simp only [dictUpdate, List.foldl_cons, List.foldl_nil]
      exact alistGet?_alistSet_self _ _ _
    cases src with
    | none => exact alistGet?_ite_set _ _ _ _ _ hvt _ base
    | some s =>
      by_cases hs : s = []
      · simp only [hs, if_pos rfl]
        exact alistGet?_ite_set _ _ _ _ _ hvt _ base
      · simp only [if_neg hs]
        rw [alistGet?_alistSet_ne _ _ _ _ hvs]
        exact alistGet?_ite_set _ _ _ _ _ hvt _ base
  · simp only [update_affect, hfound]
  · intro rec hmem hrid
    simp only [update_affect, hfound, collUpdate] at hmem
    rcases List.mem_map.mp hmem with ⟨r', _, hr'⟩
    by_cases hcase : r'.rid = uid
    · rw [if_pos hcase] at hr'
      subst hr'
      refine ⟨?_, le_max_left _ _, max_le (by norm_num) (min_le_left _ _)⟩
      rw [alistGet?_alistSet_ne _ _ _ _ hvu]
      exact alistGet?_alistSet_self _ _ _
    · rw [if_neg hcase] at hr'
      subst hr'
      exact absurd hrid hcase

/-- Claim C1, witness: the amended theorem applied to a concrete update of
an existing affect item with out-of-range valence `5`. -/
theorem affective_clamp_amended_witness :
    (∃ rec : Record,
        (tag_content (chars ("t")) (chars ("a2")) (chars ("d")) [] 7 [] none []).2
          = [] ++ [rec]
        ∧ alistGet? rec.md valenceKey = some (MetaVal.num 7))
    ∧ (update_affect (chars ("t1")) (chars ("a1")) none none (some 5) none
        [{ rid := chars ("a1"), content := [], md := [] }]).1 = true
    ∧ (∀ rec ∈ (update_affect (chars ("t1")) (chars ("a1")) none none (some 5) none
        [{ rid := chars ("a1"), content := [], md := [] }]).2,
        rec.rid = chars ("a1") →
        alistGet? rec.md valenceKey = some (MetaVal.num (max (-1 : Rat) (min 1 5)))
          ∧ (-1 : Rat) ≤ max (-1 : Rat) (min 1 5) ∧ max (-1 : Rat) (min 1 5) ≤ 1) :=
  affective_clamp_amended (chars ("t")) (chars ("a2")) (chars ("d")) [] 7 [] none []
    (chars ("t1")) (chars ("a1")) none none 5 none
    [{ rid := chars ("a1"), content := [], md := [] }]
    { rid := chars ("a1"), content := [], md := [] } (by decide)

/-! ## Claim C2 -/

/-- Claim C2, counterexample: the semantic and episodic layer stores accept
empty content — the call returns normally and writes a record whose content
is empty, instead of failing with a `ValidationError`. -/
theorem store_empty_content_counterexample :
    ((semantic_store_memory (chars ("t")) (chars ("m1")) [] [] [] none []).2.map
        Record.content = [([] : Str)])
    ∧ ((episodic_store_memory (chars ("t")) (chars ("m2")) [] [] [] none []).2.map
        Record.content = [([] : Str)]) := by
  decide

/-- Claim C2, amended: the layer stores perform no content validation at
all — `store_memory` accepts every content (empty or not), always appends
exactly one record once the vector index is reachable, and assigns
`created_at == updated_at`; empty-content rejection exists only at the
excluded HTTP boundary. -/
theorem store_no_validation_amended (ts mid content : Str) (md0 : Metadata)
    (tg : List Str) (src : Option Str) (coll : Collection) :
    (∃ rec : Record, (semantic_store_memory ts mid content md0 tg src coll).2
        = coll ++ [rec]
      ∧ rec.rid = mid ∧ rec.content = content
      ∧ alistGet? rec.md createdAtKey = some (MetaVal.s ts)
      ∧ alistGet? rec.md updatedAtKey = some (MetaVal.s ts))
    ∧ (∃ rec : Record, (episodic_store_memory ts mid content md0 tg src coll).2
        = coll ++ [rec]
      ∧ rec.rid = mid ∧ rec.content = content
      ∧ alistGet? rec.md createdAtKey = some (MetaVal.s ts)
      ∧ alistGet? rec.md updatedAtKey = some (MetaVal.s ts)) := by
  have hct : createdAtKey ≠ tagsKey := by decide
  have hcs : createdAtKey ≠ sourceKey := by decide
  have hcu : createdAtKey ≠ updatedAtKey := by decide
  have hce : createdAtKey ≠ eventTimeKey := by decide
  have hut : updatedAtKey ≠ tagsKey := by decide
  have hus : updatedAtKey ≠ sourceKey := by decide
  have hue : updatedAtKey ≠ eventTimeKey := by decide
  constructor
  · simp only [semantic_store_memory, collAdd]
    refine ⟨_, rfl, rfl, rfl, ?_, ?_⟩
    · have base : alistGet? (dictUpdate md0
          [(memoryTypeKey, MetaVal.s (chars ("semantic"))),
           (createdAtKey, MetaVal.s ts),
           (updatedAtKey, MetaVal.s ts)]) createdAtKey = some (MetaVal.s ts) := by
        simp only [dictUpdate, List.foldl_cons, List.foldl_nil]
        rw [alistGet?_alistSet_ne _ _ _ _ hcu]
        exact alistGet?_alistSet_self _ _ _
      cases src with
      | none => exact alistGet?_ite_set _ _ _ _ _ hct _ base
      | some s =>
        by_cases hs : s = []
        · simp only [hs, if_pos rfl]
          exact alistGet?_ite_set _ _ _ _ _ hct _ base
        · simp only [if_neg hs]
          rw [alistGet?_alistSet_ne _ _ _ _ hcs]
          exact alistGet?_ite_set _ _ _ _ _ hct _ base
    · have base : alistGet? (dictUpdate md0
          [(memoryTypeKey, MetaVal.s (chars ("semantic"))),
           (createdAtKey, MetaVal.s ts),
           (updatedAtKey, MetaVal.s ts)]) updatedAtKey = some (MetaVal.s ts) := by
        simp only [dictUpdate, List.foldl_cons, List.foldl_nil]
        exact alistGet?_alistSet_self _ _ _
      cases src with
      | none => exact alistGet?_ite_set _ _ _ _ _ hut _ base
      | some s =>
        by_cases hs : s = []
        · simp only [hs, if_pos rfl]
          exact alistGet?_ite_set _ _ _ _ _ hut _ base
        · simp only [if_neg hs]
          rw [alistGet?_alistSet_ne _ _ _ _ hus]
          exact alistGet?_ite_set _ _ _ _ _ hut _ base
  · simp only [episodic_store_memory, collAdd]
    refine ⟨_, rfl, rfl, rfl, ?_, ?_⟩
    · have base : alistGet? (dictUpdate md0
          [(memoryTypeKey, MetaVal.s (chars ("episodic"))),
           (createdAtKey, MetaVal.s ts),
           (updatedAtKey, MetaVal.s ts),
           (eventTimeKey, (alistGet? md0 eventTimeKey).getD (MetaVal.s ts))])
          createdAtKey = some (MetaVal.s ts) := by
        simp only [dictUpdate, List.foldl_cons, List.foldl_nil]
        rw [alistGet?_alistSet_ne _ _ _ _ hce, alistGet?_alistSet_ne _ _ _ _ hcu]
        exact alistGet?_alistSet_self _ _ _
      cases src with
      | none => exact alistGet?_ite_set _ _ _ _ _ hct _ base
      | some s =>
        by_cases hs : s = []
        · simp only [hs, if_pos rfl]
          exact alistGet?_ite_set _ _ _ _ _ hct _ base
        · simp only [if_neg hs]
          rw [alistGet?_alistSet_ne _ _ _ _ hcs]
          exact alistGet?_ite_set _ _ _ _ _ hct _ base
    · have base : alistGet? (dictUpdate md0
          [(memoryTypeKey, MetaVal.s (chars ("episodic"))),
           (createdAtKey, MetaVal.s ts),
           (updatedAtKey, MetaVal.s ts),
           (eventTimeKey, (alistGet? md0 eventTimeKey).getD (MetaVal.s ts))])
          updatedAtKey = some (MetaVal.s ts) := by
        simp only [dictUpdate, List.foldl_cons, List.foldl_nil]
        rw [alistGet?_alistSet_ne _ _ _ _ hue]
        exact alistGet?_alistSet_self _ _ _
      cases src with
      | none => exact alistGet?_ite_set _ _ _ _ _ hut _ base
      | some s =>
        by_cases hs : s = []
        · simp only [hs, if_pos rfl]
          exact alistGet?_ite_set _ _ _ _ _ hut _ base
        · simp only [if_neg hs]
          rw [alistGet?_alistSet_ne _ _ _ _ hus]
          exact alistGet?_ite_set _ _ _ _ _ hut _ base

/-! ## Claim C6 -/

/-- Claim C6, counterexample: `retrieve_by_timeframe` returns its records
sorted by `event_time` ascending (oldest first) — here the first returned
record's event time strictly precedes the second's, so the order is not
descending as claimed. -/
theorem retrieve_by_timeframe_ascending_counterexample :
    retrieve_by_timeframe 1000000 (chars ("00")) (some (chars ("99"))) 100
      [{ rid := chars ("r1"), content := [],
         md := [(eventTimeKey, MetaVal.s (chars ("03")))] },
       { rid := chars ("r2"), content := [],
         md := [(eventTimeKey, MetaVal.s (chars ("02")))] }] =
      [{ rid := chars ("r2"), content := [],
         md := [(eventTimeKey, MetaVal.s (chars ("02")))] },
       { rid := chars ("r1"), content := [],
         md := [(eventTimeKey, MetaVal.s (chars ("03")))] }]
    ∧ strLt (chars ("02")) (chars ("03")) = true := by
  decide

/-- Claim C6, amended: both re-sorting operations are stable sorts by the
layer's temporal field, but episodic `retrieve_by_timeframe` sorts by
`event_time` ascending (oldest first), while only the affect feed sorts by
`created_at` descending (most recent first).  Stability is stated as:
a key-ordered sublist of the pre-sort items is still a sublist of the
output. -/
theorem temporal_sort_amended (nowSec : Int) (startDate : Str)
    (endDate : Option Str) (limit : Nat) (coll : Collection)
    (tag : Option Str) (valenceRange : Option Str) (flimit : Nat)
    (acoll : Collection) :
    List.Sorted timeframeAscRel
      (retrieve_by_timeframe nowSec startDate endDate limit coll)
    ∧ List.Perm (retrieve_by_timeframe nowSec startDate endDate limit coll)
        (retrieve_by_timeframe_items nowSec startDate endDate limit coll)
    ∧ (∀ cs : Collection, cs.Pairwise timeframeAscRel →
        List.Sublist cs (retrieve_by_timeframe_items nowSec startDate endDate limit coll) →
        List.Sublist cs (retrieve_by_timeframe nowSec startDate endDate limit coll))
    ∧ List.Sorted feedDescRel (get_affect_feed tag valenceRange flimit acoll)
    ∧ List.Perm (get_affect_feed tag valenceRange flimit acoll)
        (get_affect_feed_items tag valenceRange flimit acoll)
    ∧ (∀ cs : List AffectItem, cs.Pairwise feedDescRel →
        List.Sublist cs (get_affect_feed_items tag valenceRange flimit acoll) →
        List.Sublist cs (get_affect_feed tag valenceRange flimit acoll)) := by
  refine ⟨?_, ?_, ?_, ?_, ?_, ?_⟩
  · exact List.sorted_insertionSort timeframeAscRel _
  · exact List.perm_insertionSort timeframeAscRel _
  · intro cs h1 h2
    exact List.sublist_insertionSort h1 h2
  · exact List.sorted_insertionSort feedDescRel _
  · exact List.perm_insertionSort feedDescRel _
  · intro cs h1 h2
    exact List.sublist_insertionSort h1 h2

/-- Claim C6, witness: the amended theorem applied to a concrete timeframe
retrieval and a concrete affect feed. -/
theorem temporal_sort_amended_witness :
    List.Sorted timeframeAscRel
      (retrieve_by_timeframe 1000000 (chars ("00")) (some (chars ("99"))) 100
        [{ rid := chars ("r1"), content := [],
           md := [(eventTimeKey, MetaVal.s (chars ("03")))] }])
    ∧ List.Perm
        (retrieve_by_timeframe 1000000 (chars ("00")) (some (chars ("99"))) 100
          [{ rid := chars ("r1"), content := [],
             md := [(eventTimeKey, MetaVal.s (chars ("03")))] }])
        (retrieve_by_timeframe_items 1000000 (chars ("00")) (some (chars ("99"))) 100
          [{ rid := chars ("r1"), content := [],
             md := [(eventTimeKey, MetaVal.s (chars ("03")))] }])
    ∧ (∀ cs : Collection, cs.Pairwise timeframeAscRel →
        List.Sublist cs (retrieve_by_timeframe_items 1000000 (chars ("00"))
          (some (chars ("99"))) 100
          [{ rid := chars ("r1"), content := [],
             md := [(eventTimeKey, MetaVal.s (chars ("03")))] }]) →
        List.Sublist cs (retrieve_by_timeframe 1000000 (chars ("00"))
          (some (chars ("99"))) 100
          [{ rid := chars ("r1"), content := [],
             md := [(eventTimeKey, MetaVal.s (chars ("03")))] }]))
    ∧ List.Sorted feedDescRel (get_affect_feed none none 20 [])
    ∧ List.Perm (get_affect_feed none none 20 [])
        (get_affect_feed_items none none 20 [])
    ∧ (∀ cs : List AffectItem, cs.Pairwise feedDescRel →
        List.Sublist cs (get_affect_feed_items none none 20 []) →
        List.Sublist cs (get_affect_feed none none 20 [])) :=
  temporal_sort_amended 1000000 (chars ("00")) (some (chars ("99"))) 100
    [{ rid := chars ("r1"), content := [],
       md := [(eventTimeKey, MetaVal.s (chars ("03")))] }]
    none none 20 []

/-! ## Claim C7 -/

theorem evalWhere_single (k : Str) (c : Cond) (m : Metadata) :
    evalWhere [(k, c)] m = evalCond m k c := by
  simp [evalWhere, List.all_cons, List.all_nil, Bool.and_true]

theorem collGetWhere_lt_eq_filter (cutoff : Str) (coll : Collection) :
    collGetWhere coll [(createdAtKey, { lt := some cutoff })] none
      = coll.filter (isOld cutoff) := by
  unfold collGetWhere
  apply List.filter_congr
  intro r _
  rw [evalWhere_single]
  rfl

theorem collDelete_filter (coll : Collection) (p : Record → Bool)
    (hids : (coll.map Record.rid).Nodup) :
    collDelete coll ((coll.filter p).map Record.rid)
      = coll.filter (fun r => !(p r)) := by
  unfold collDelete
  apply List.filter_congr
  intro r hr
  have hc : ((coll.filter p).map Record.rid).contains r.rid = p r := by
    cases hp : p r with
    | true =>
      have hmem : r.rid ∈ (coll.filter p).map Record.rid :=
        List.mem_map.mpr ⟨r, List.mem_filter.mpr ⟨hr, hp⟩, rfl⟩
      simpa [List.contains, List.elem_eq_mem] using hmem
    | false =>
      have hninj : r.rid ∉ (coll.filter p).map Record.rid := by
        intro hmem
        rcases List.mem_map.mp hmem with ⟨r', hr', hid⟩
        have hr'coll : r' ∈ coll := (List.mem_filter.mp hr').1
        have : r' = r := List.inj_on_of_nodup_map hids hr'coll hr hid
        subst this
        rw [(List.mem_filter.mp hr').2] at hp
        simp at hp
      simpa [List.contains, List.elem_eq_mem] using hninj
  rw [hc]

/-- Claim C7, confirmed for the per-collection body of `prune_old_memories`
(record ids unique, the stated collection invariant): a dry run leaves the
collection unchanged and reports exactly the count of records older than the
cutoff; the live run deletes exactly those records and no others, and
reports that count. -/
theorem prune_old_memories_exact (cutoff : Str) (coll : Collection)
    (hids : (coll.map Record.rid).Nodup) :
    (prune_collection cutoff true coll).2 = coll
    ∧ (prune_collection cutoff true coll).1
        = PruneReport.dryRunReport coll.length (coll.filter (isOld cutoff)).length
    ∧ (prune_collection cutoff false coll).2
        = coll.filter (fun r => !(isOld cutoff r))
    ∧ (0 < (coll.filter (isOld cutoff)).length →
        (prune_collection cutoff false coll).1
          = PruneReport.success coll.length
              (coll.filter (fun r => !(isOld cutoff r))).length
              (coll.filter (isOld cutoff)).length) := by
  refine ⟨?_, ?_, ?_, ?_⟩
  · simp [prune_collection]
  · simp [prune_collection, collGetWhere_lt_eq_filter]
  · by_cases hpos : 0 < (coll.filter (isOld cutoff)).length
    · have hcond : (!false && decide (0 < (coll.filter (isOld cutoff)).length)) = true := by
        simp [hpos]
      simp only [prune_collection, collGetWhere_lt_eq_filter]
      rw [if_pos hcond]
      exact collDelete_filter coll (isOld cutoff) hids
    · have hcond : (!false && decide (0 < (coll.filter (isOld cutoff)).length)) = false := by
        simp [hpos]
      simp only [prune_collection, collGetWhere_lt_eq_filter]
      rw [if_neg (by rw [hcond]; exact Bool.false_ne_true)]
      have hnil : coll.filter (isOld cutoff) = [] := by
        cases hl : coll.filter (isOld cutoff) with
        | nil => rfl
        | cons x xs =>
          rw [hl] at hpos
          exact absurd (Nat.succ_pos _) hpos
      have : ∀ r ∈ coll, isOld cutoff r = false := by
        intro r hr
        have := List.filter_eq_nil_iff.mp hnil r hr
        cases hb : isOld cutoff r with
        | true => exact absurd hb this
        | false => rfl
      symm
      apply List.filter_eq_self.mpr
      intro r hr
      rw [this r hr]
      rfl
  · intro hpos
    have hcond : (!false && decide (0 < (coll.filter (isOld cutoff)).length)) = true := by
      simp [hpos]
    simp only [prune_collection, collGetWhere_lt_eq_filter]
    rw [if_pos hcond, collDelete_filter coll (isOld cutoff) hids]

/-- Claim C7, witness: the exact-pruning theorem applied to a concrete
two-record collection, one record older than the cutoff. -/
theorem prune_old_memories_exact_witness :
    (prune_collection (chars ("05")) true
        [{ rid := chars ("r1"), content := [],
           md := [(createdAtKey, MetaVal.s (chars ("03")))] },
         { rid := chars ("r2"), content := [],
           md := [(createdAtKey, MetaVal.s (chars ("07")))] }]).2
      = [{ rid := chars ("r1"), content := [],
           md := [(createdAtKey, MetaVal.s (chars ("03")))] },
         { rid := chars ("r2"), content := [],
           md := [(createdAtKey, MetaVal.s (chars ("07")))] }]
    ∧ (prune_collection (chars ("05")) true
        [{ rid := chars ("r1"), content := [],
           md := [(createdAtKey, MetaVal.s (chars ("03")))] },
         { rid := chars ("r2"), content := [],
           md := [(createdAtKey, MetaVal.s (chars ("07")))] }]).1
      = PruneReport.dryRunReport
          ([{ rid := chars ("r1"), content := [],
              md := [(createdAtKey, MetaVal.s (chars ("03")))] },
            { rid := chars ("r2"), content := [],
              md := [(createdAtKey, MetaVal.s (chars ("07")))] }] : Collection).length
          (([{ rid := chars ("r1"), content := [],
               md := [(createdAtKey, MetaVal.s (chars ("03")))] },
             { rid := chars ("r2"), content := [],
               md := [(createdAtKey, MetaVal.s (chars ("07")))] }] : Collection).filter
             (isOld (chars ("05")))).length
    ∧ (prune_collection (chars ("05")) false
        [{ rid := chars ("r1"), content := [],
           md := [(createdAtKey, MetaVal.s (chars ("03")))] },
         { rid := chars ("r2"), content := [],
           md := [(createdAtKey, MetaVal.s (chars ("07")))] }]).2
      = ([{ rid := chars ("r1"), content := [],
            md := [(createdAtKey, MetaVal.s (chars ("03")))] },
          { rid := chars ("r2"), content := [],
            md := [(createdAtKey, MetaVal.s (chars ("07")))] }] : Collection).filter
          (fun r => !(isOld (chars ("05")) r))
    ∧ (0 < (([{ rid := chars ("r1"), content := [],
                md := [(createdAtKey, MetaVal.s (chars ("03")))] },
              { rid := chars ("r2"), content := [],
                md := [(createdAtKey, MetaVal.s (chars ("07")))] }] : Collection).filter
              (isOld (chars ("05")))).length →
        (prune_collection (chars ("05")) false
          [{ rid := chars ("r1"), content := [],
             md := [(createdAtKey, MetaVal.s (chars ("03")))] },
           { rid := chars ("r2"), content := [],
             md := [(createdAtKey, MetaVal.s (chars ("07")))] }]).1
          = PruneReport.success
              ([{ rid := chars ("r1"), content := [],
                  md := [(createdAtKey, MetaVal.s (chars ("03")))] },
                { rid := chars ("r2"), content := [],
                  md := [(createdAtKey, MetaVal.s (chars ("07")))] }] : Collection).length
              (([{ rid := chars ("r1"), content := [],
                   md := [(createdAtKey, MetaVal.s (chars ("03")))] },
                 { rid := chars ("r2"), content := [],
                   md := [(createdAtKey, MetaVal.s (chars ("07")))] }] : Collection).filter
                 (fun r => !(isOld (chars ("05")) r))).length
              (([{ rid := chars ("r1"), content := [],
                   md := [(createdAtKey, MetaVal.s (chars ("03")))] },
                 { rid := chars ("r2"), content := [],
                   md := [(createdAtKey, MetaVal.s (chars ("07")))] }] : Collection).filter
                 (isOld (chars ("05")))).length) :=
  prune_old_memories_exact (chars ("05"))
    [{ rid := chars ("r1"), content := [],
       md := [(createdAtKey, MetaVal.s (chars ("03")))] },
     { rid := chars ("r2"), content := [],
       md := [(createdAtKey, MetaVal.s (chars ("07")))] }] (by decide)

/-! ## Claim C9 -/

theorem timeRangeStartDate_unrecognized (nowSec : Int) (tr : Str)
    (hd : endsWithL tr (chars ("d")) = false)
    (hh : endsWithL tr (chars ("h")) = false) :
    timeRangeStartDate nowSec tr = .ok (isoStr (nowSec - 30 * secPerDay)) := by
  unfold timeRangeStartDate
  rw [if_neg (by rw [hd]; exact Bool.false_ne_true),
    if_neg (by rw [hh]; exact Bool.false_ne_true)]

theorem timeRangeStartDate_30d (nowSec : Int) :
    timeRangeStartDate nowSec (chars ("30d")) = .ok (isoStr (nowSec - 30 * secPerDay)) :=
  rfl

/-- Claim C9, counterexample: the `time_range` string `"xd"` is not of the
form `<N>d`, yet episodic retrieval does not fall back to 30 days — it
raises (`int("x")` raises `ValueError`). -/
theorem time_range_xd_counterexample :
    (episodic_retrieve_memories (fun _ l => l.map (fun r => (r, 0))) 1000000
      (chars ("q")) 5 (some (chars ("xd"))) []).isOk = false := by
  decide

/-- Claim C9, amended: a non-empty `time_range` that ends in neither `d` nor
`h` behaves exactly like `"30d"` (30-day fallback, no error) in episodic
retrieval, reflection retrieval and reflection sampling; a string ending in
`d`/`h` whose prefix is not an integer literal instead raises `ValueError`,
and an empty string applies no time filter at all. -/
theorem time_range_fallback_amended (rank rE rS rP : RankFn) (nowSec : Int)
    (q : Str) (n : Nat) (tr : Str) (coll collE collS collP : Collection)
    (query : Option Str) (tags : Option (List Str)) (maxMem : Nat)
    (h0 : tr ≠ [])
    (hd : endsWithL tr (chars ("d")) = false)
    (hh : endsWithL tr (chars ("h")) = false) :
    episodic_retrieve_memories rank nowSec q n (some tr) coll
      = episodic_retrieve_memories rank nowSec q n (some (chars ("30d"))) coll
    ∧ retrieve_reflections rank nowSec q n (some tr) coll
      = retrieve_reflections rank nowSec q n (some (chars ("30d"))) coll
    ∧ get_memories_for_reflection rE rS rP nowSec query (some tr) tags maxMem
        collE collS collP
      = get_memories_for_reflection rE rS rP nowSec query (some (chars ("30d"))) tags
          maxMem collE collS collP := by
  have hF : ∀ key : Str, timeFilterOn key nowSec (some tr)
      = timeFilterOn key nowSec (some (chars ("30d"))) := by
    intro key
    rw [show timeFilterOn key nowSec (some tr)
        = (if tr = [] then PyResult.ok none
          else match timeRangeStartDate nowSec tr with
            | .ok start => PyResult.ok (some [(key, ({ gte := some start } : Cond))])
            | .raised e => PyResult.raised e) from rfl]
    rw [show timeFilterOn key nowSec (some (chars ("30d")))
        = (if chars ("30d") = ([] : Str) then PyResult.ok none
          else match timeRangeStartDate nowSec (chars ("30d")) with
            | .ok start => PyResult.ok (some [(key, ({ gte := some start } : Cond))])
            | .raised e => PyResult.raised e) from rfl]
    rw [if_neg h0, if_neg (by decide : ¬(chars ("30d") = ([] : Str))),
      timeRangeStartDate_unrecognized nowSec tr hd hh, timeRangeStartDate_30d]
  have hW : ∀ (ts : List Str) (tkey : Str),
      tagsBranchWhere nowSec ts (some tr) tkey
        = tagsBranchWhere nowSec ts (some (chars ("30d"))) tkey := by
    intro ts tkey
    unfold tagsBranchWhere
    rw [show (match some tr with
        | none => PyResult.ok (ts.foldl
            (fun w t => alistSet w tagsKey ({ containsTag := some t } : Cond))
            ([] : WhereClause))
        | some tr2 =>
          if tr2 = [] then PyResult.ok (ts.foldl
              (fun w t => alistSet w tagsKey ({ containsTag := some t } : Cond))
              ([] : WhereClause))
          else match timeRangeStartDate nowSec tr2 with
            | .ok start => PyResult.ok (alistSet (ts.foldl
                (fun w t => alistSet w tagsKey ({ containsTag := some t } : Cond))
                ([] : WhereClause)) tkey ({ gte := some start } : Cond))
            | .raised e => PyResult.raised e)
        = (if tr = [] then PyResult.ok (ts.foldl
            (fun w t => alistSet w tagsKey ({ containsTag := some t } : Cond))
            ([] : WhereClause))
          else match timeRangeStartDate nowSec tr with
            | .ok start => PyResult.ok (alistSet (ts.foldl
                (fun w t => alistSet w tagsKey ({ containsTag := some t } : Cond))
                ([] : WhereClause)) tkey ({ gte := some start } : Cond))
            | .raised e => PyResult.raised e) from rfl]
    rw [show (match some (chars ("30d")) with
        | none => PyResult.ok (ts.foldl
            (fun w t => alistSet w tagsKey ({ containsTag := some t } : Cond))
            ([] : WhereClause))
        | some tr2 =>
          if tr2 = [] then PyResult.ok (ts.foldl
              (fun w t => alistSet w tagsKey ({ containsTag := some t } : Cond))
              ([] : WhereClause))
          else match timeRangeStartDate nowSec tr2 with
            | .ok start => PyResult.ok (alistSet (ts.foldl
                (fun w t => alistSet w tagsKey ({ containsTag := some t } : Cond))
                ([] : WhereClause)) tkey ({ gte := some start } : Cond))
            | .raised e => PyResult.raised e)
        = (if chars ("30d") = ([] : Str) then PyResult.ok (ts.foldl
            (fun w t => alistSet w tagsKey ({ containsTag := some t } : Cond))
            ([] : WhereClause))
          else match timeRangeStartDate nowSec (chars ("30d")) with
            | .ok start => PyResult.ok (alistSet (ts.foldl
                (fun w t => alistSet w tagsKey ({ containsTag := some t } : Cond))
                ([] : WhereClause)) tkey ({ gte := some start } : Cond))
            | .raised e => PyResult.raised e) from rfl]
    rw [if_neg h0, if_neg (by decide : ¬(chars ("30d") = ([] : Str))),
      timeRangeStartDate_unrecognized nowSec tr hd hh, timeRangeStartDate_30d]
  have hE : episodic_retrieve_memories rank nowSec q n (some tr) coll
      = episodic_retrieve_memories rank nowSec q n (some (chars ("30d"))) coll := by
    unfold episodic_retrieve_memories
    rw [hF eventTimeKey]
  refine ⟨hE, ?_, ?_⟩
  · unfold retrieve_reflections
    rw [hF createdAtKey]
  · unfold get_memories_for_reflection
    have hbr : (if qTruthy query then
          reflectionQueryBranch rE rS rP nowSec (query.getD []) (some tr) maxMem
            collE collS collP
        else if tagsTruthy tags then
          reflectionTagsBranch nowSec (tags.getD []) (some tr) maxMem collE collS collP
        else
          .ok (reflectionRecencyBranch nowSec maxMem collE collS collP))
        = (if qTruthy query then
          reflectionQueryBranch rE rS rP nowSec (query.getD []) (some (chars ("30d")))
            maxMem collE collS collP
        else if tagsTruthy tags then
          reflectionTagsBranch nowSec (tags.getD []) (some (chars ("30d"))) maxMem
            collE collS collP
        else
          .ok (reflectionRecencyBranch nowSec maxMem collE collS collP)) := by
      by_cases hq : qTruthy query = true
      · rw [if_pos hq, if_pos hq]
        unfold reflectionQueryBranch
        rw [show episodic_retrieve_memories rE nowSec (query.getD []) (maxMem / 3)
            (some tr) collE = episodic_retrieve_memories rE nowSec (query.getD [])
            (maxMem / 3) (some (chars ("30d"))) collE by
          unfold episodic_retrieve_memories
          rw [hF eventTimeKey]]
      · rw [if_neg hq, if_neg hq]
        by_cases ht : tagsTruthy tags = true
        · rw [if_pos ht, if_pos ht]
          unfold reflectionTagsBranch tagsBranchLayer
          rw [hW (tags.getD []) eventTimeKey, hW (tags.getD []) createdAtKey]
        · rw [if_neg ht, if_neg ht]
    rw [hbr]

/-- Claim C9, witness: the amended theorem applied to the unrecognized
range `"soon"` over concrete states. -/
theorem time_range_fallback_amended_witness :
    episodic_retrieve_memories (fun _ l => l.map (fun r => (r, 0))) 1000000
        (chars ("q")) 5 (some (chars ("soon"))) []
      = episodic_retrieve_memories (fun _ l => l.map (fun r => (r, 0))) 1000000
          (chars ("q")) 5 (some (chars ("30d"))) []
    ∧ retrieve_reflections (fun _ l => l.map (fun r => (r, 0))) 1000000
        (chars ("q")) 5 (some (chars ("soon"))) []
      = retrieve_reflections (fun _ l => l.map (fun r => (r, 0))) 1000000
          (chars ("q")) 5 (some (chars ("30d"))) []
    ∧ get_memories_for_reflection (fun _ l => l.map (fun r => (r, 0)))
        (fun _ l => l.map (fun r => (r, 0))) (fun _ l => l.map (fun r => (r, 0)))
        1000000 none (some (chars ("soon"))) (some [chars ("x")]) 9 [] [] []
      = get_memories_for_reflection (fun _ l => l.map (fun r => (r, 0)))
          (fun _ l => l.map (fun r => (r, 0))) (fun _ l => l.map (fun r => (r, 0)))
          1000000 none (some (chars ("30d"))) (some [chars ("x")]) 9 [] [] [] :=
  time_range_fallback_amended (fun _ l => l.map (fun r => (r, 0)))
    (fun _ l => l.map (fun r => (r, 0))) (fun _ l => l.map (fun r => (r, 0)))
    (fun _ l => l.map (fun r => (r, 0))) 1000000 (chars ("q")) 5 (chars ("soon"))
    [] [] [] [] none (some [chars ("x")]) 9 (by decide) (by decide) (by decide)

/-! ## Claim C10 -/

/-- Claim C10, counterexample: a call to `generate_reflections` with a query,
`max_source_memories = 2` and the malformed `time_range` `"xd"` does not
return the empty list — it raises before sampling completes. -/
theorem generate_reflections_xd_counterexample :
    (generate_reflections (fun _ l => l.map (fun r => (r, 0)))
      (fun _ l => l.map (fun r => (r, 0))) (fun _ l => l.map (fun r => (r, 0)))
      1000000 (.ok []) (chars ("t")) (fun _ => [])
      (some (chars ("q"))) (some (chars ("xd"))) none 2
      [{ rid := chars ("e1"), content := chars ("x"), md := [] }] [] [] []).isOk
      = false := by
  decide

/-- Claim C10, amended: with a query set, whenever the `time_range` filter
itself does not raise, each layer is asked for `max_source_memories // 3`
results; with `max_source_memories ≤ 2` that share is `0`, so the candidate
set is empty and the call returns the empty list with no completion call,
no matter what is stored. -/
theorem query_branch_starvation_amended (rE rS rP : RankFn) (nowSec : Int)
    (llm : PyResult Str) (ts : Str) (idFn : Nat → Str) (q : Str)
    (timeRange : Option Str) (tags : Option (List Str)) (maxMem : Nat)
    (collE collS collP collR : Collection)
    (hq : q ≠ [])
    (hmax : maxMem ≤ 2)
    (ht : (timeFilterOn eventTimeKey nowSec timeRange).isOk = true) :
    get_memories_for_reflection rE rS rP nowSec (some q) timeRange tags maxMem
        collE collS collP = .ok []
    ∧ generate_reflections rE rS rP nowSec llm ts idFn (some q) timeRange tags
        maxMem collE collS collP collR = .ok ([], collR, false) := by
  have h3 : maxMem / 3 = 0 := Nat.div_eq_of_lt (by omega)
  have hqb : reflectionQueryBranch rE rS rP nowSec q timeRange maxMem collE collS collP
      = .ok [] := by
    cases hw : timeFilterOn eventTimeKey nowSec timeRange with
    | raised e =>
      rw [hw] at ht
      simp [PyResult.isOk] at ht
    | ok w =>
      unfold reflectionQueryBranch episodic_retrieve_memories
      rw [hw]
      unfold semantic_retrieve_memories procedural_retrieve_memories collQuery
      rw [h3]
      simp
  have hgm : get_memories_for_reflection rE rS rP nowSec (some q) timeRange tags maxMem
      collE collS collP = .ok [] := by
    unfold get_memories_for_reflection
    have hqt : qTruthy (some q) = true := by
      simp [qTruthy, hq]
    rw [if_pos hqt]
    show (match reflectionQueryBranch rE rS rP nowSec ((some q).getD []) timeRange maxMem
        collE collS collP with
      | .raised e => PyResult.raised e
      | .ok allMemories => .ok (allMemories.take maxMem)) = .ok []
    rw [show ((some q).getD []) = q from rfl, hqb]
    simp
  refine ⟨hgm, ?_⟩
  unfold generate_reflections
  rw [hgm]
  rfl

/-- Claim C10, witness: the amended theorem applied to a concrete call with
`max_source_memories = 2`, no time range, and a non-empty episodic store. -/
theorem query_branch_starvation_amended_witness :
    get_memories_for_reflection (fun _ l => l.map (fun r => (r, 0)))
        (fun _ l => l.map (fun r => (r, 0))) (fun _ l => l.map (fun r => (r, 0)))
        1000000 (some (chars ("q"))) none none 2
        [{ rid := chars ("e1"), content := chars ("x"), md := [] }] [] [] = .ok []
    ∧ generate_reflections (fun _ l => l.map (fun r => (r, 0)))
        (fun _ l => l.map (fun r => (r, 0))) (fun _ l => l.map (fun r => (r, 0)))
        1000000 (.ok []) (chars ("t")) (fun _ => []) (some (chars ("q"))) none none 2
        [{ rid := chars ("e1"), content := chars ("x"), md := [] }] [] [] []
      = .ok ([], [], false) :=
  query_branch_starvation_amended (fun _ l => l.map (fun r => (r, 0)))
    (fun _ l => l.map (fun r => (r, 0))) (fun _ l => l.map (fun r => (r, 0)))
    1000000 (.ok []) (chars ("t")) (fun _ => []) (chars ("q")) none none 2
    [{ rid := chars ("e1"), content := chars ("x"), md := [] }] [] [] []
    (by decide) (by decide) (by decide)

/-! ## Claim C3 -/

theorem condLastFold : ∀ (ts' : List Str) (t : Str),
    ts'.foldl (fun _ t2 => ({ containsTag := some t2 } : Cond))
        ({ containsTag := some t } : Cond)
      = { containsTag := some ((t :: ts').getLast (List.cons_ne_nil t ts')) }
  | [], _ => rfl
  | t' :: ts'', t => by
    rw [List.foldl_cons, condLastFold ts'' t']
    rfl

theorem tagsFold_single : ∀ (ts : List Str) (c : Cond),
    ts.foldl (fun w t => alistSet w tagsKey ({ containsTag := some t } : Cond))
        [(tagsKey, c)]
      = [(tagsKey, ts.foldl (fun _ t => ({ containsTag := some t } : Cond)) c)]
  | [], _ => rfl
  | t :: ts, c => by
    rw [List.foldl_cons, List.foldl_cons]
    have hs : alistSet [(tagsKey, c)] tagsKey ({ containsTag := some t } : Cond)
        = [(tagsKey, ({ containsTag := some t } : Cond))] := by
      simp [alistSet]
    rw [hs]
    exact tagsFold_single ts _

theorem tagsFold_last (ts : List Str) (hts : ts ≠ []) :
    ts.foldl (fun w t => alistSet w tagsKey ({ containsTag := some t } : Cond))
        ([] : WhereClause)
      = [(tagsKey, { containsTag := some (ts.getLast hts) })] := by
  cases ts with
  | nil => exact absurd rfl hts
  | cons t ts' =>
    rw [List.foldl_cons]
    have h0 : alistSet ([] : WhereClause) tagsKey ({ containsTag := some t } : Cond)
        = [(tagsKey, ({ containsTag := some t } : Cond))] := by
      simp [alistSet]
    rw [h0, tagsFold_single, condLastFold]

theorem tagsBranchWhere_mem (nowSec : Int) (ts : List Str) (timeRange : Option Str)
    (timeKey : Str) (w : WhereClause) (hts : ts ≠ []) (htk : timeKey ≠ tagsKey)
    (h : tagsBranchWhere nowSec ts timeRange timeKey = .ok w) :
    (tagsKey, ({ containsTag := some (ts.getLast hts) } : Cond)) ∈ w := by
  unfold tagsBranchWhere at h
  rw [tagsFold_last ts hts] at h
  cases timeRange with
  | none =>
    replace h : PyResult.ok [(tagsKey, ({ containsTag := some (ts.getLast hts) } : Cond))]
        = PyResult.ok w := h
    simp only [PyResult.ok.injEq] at h
    rw [← h]
    exact List.mem_singleton.mpr rfl
  | some tr =>
    replace h : (if tr = [] then
        PyResult.ok [(tagsKey, ({ containsTag := some (ts.getLast hts) } : Cond))]
      else
        match timeRangeStartDate nowSec tr with
        | .ok start =>
          PyResult.ok (alistSet
            [(tagsKey, ({ containsTag := some (ts.getLast hts) } : Cond))]
            timeKey ({ gte := some start } : Cond))
        | .raised e => PyResult.raised e) = PyResult.ok w := h
    by_cases htr : tr = []
    · rw [if_pos htr] at h
      simp only [PyResult.ok.injEq] at h
      rw [← h]
      exact List.mem_singleton.mpr rfl
    · rw [if_neg htr] at h
      cases hsd : timeRangeStartDate nowSec tr with
      | raised e =>
        rw [hsd] at h
        simp at h
      | ok start =>
        rw [hsd] at h
        simp only [PyResult.ok.injEq] at h
        rw [← h]
        have hset : alistSet [(tagsKey, ({ containsTag := some (ts.getLast hts) } : Cond))]
            timeKey ({ gte := some start } : Cond)
            = [(tagsKey, ({ containsTag := some (ts.getLast hts) } : Cond)),
               (timeKey, ({ gte := some start } : Cond))] := by
          have : ¬(tagsKey = timeKey) := fun hh => htk hh.symm
          simp [alistSet, this]
        rw [hset]
        exact List.mem_cons_self _ _

theorem evalCond_containsTag (md : Metadata) (t : Str)
    (h : evalCond md tagsKey { containsTag := some t } = true) :
    (tagSplit (mdGetStrD md tagsKey [])).contains t = true := by
  rw [show evalCond md tagsKey { containsTag := some t }
      = (match alistGet? md tagsKey with
        | some (MetaVal.s v) => (tagSplit v).contains t
        | _ => false) from rfl] at h
  unfold mdGetStrD
  cases halg : alistGet? md tagsKey with
  | none =>
    rw [halg] at h
    exact absurd h (by simp)
  | some mv =>
    rw [halg] at h
    cases mv with
    | s v => exact h
    | num v => exact absurd h (by simp)
    | int v => exact absurd h (by simp)
    | bool v => exact absurd h (by simp)

theorem tagsBranchLayer_member (nowSec : Int) (ts : List Str) (timeRange : Option Str)
    (memType timeKey : Str) (lim : Nat) (coll : Collection)
    (res : List SourceMem) (m : SourceMem)
    (hts : ts ≠ []) (htk : timeKey ≠ tagsKey)
    (h : tagsBranchLayer nowSec ts timeRange memType timeKey lim coll = .ok res)
    (hm : m ∈ res) :
    (tagSplit (mdGetStrD m.md tagsKey [])).contains (ts.getLast hts) = true := by
  unfold tagsBranchLayer at h
  cases hw : tagsBranchWhere nowSec ts timeRange timeKey with
  | raised e =>
    rw [hw] at h
    simp at h
  | ok w =>
    rw [hw] at h
    simp only [PyResult.ok.injEq] at h
    rw [← h] at hm
    rcases List.mem_map.mp hm with ⟨r, hr, hrm⟩
    have hfil : evalWhere w r.md = true := by
      unfold collGetWhere at hr
      have := List.mem_of_mem_take hr
      exact (List.mem_filter.mp this).2
    have hcmem := tagsBranchWhere_mem nowSec ts timeRange timeKey w hts htk hw
    have hcond : evalCond r.md tagsKey { containsTag := some (ts.getLast hts) } = true := by
      have := List.all_eq_true.mp hfil _ hcmem
      exact this
    have := evalCond_containsTag r.md (ts.getLast hts) hcond
    rw [← hrm]
    exact this

/-- Claim C3, counterexample: with requested tags `["a", "b"]` the tags
branch of reflection sampling fetches a semantic record whose tag set is
just `{"b"}` — the record does not contain all requested tags, because each
loop iteration overwrote the single `"tags"` filter key. -/
theorem tags_branch_overwrite_counterexample :
    get_memories_for_reflection (fun _ l => l.map (fun r => (r, 0)))
        (fun _ l => l.map (fun r => (r, 0))) (fun _ l => l.map (fun r => (r, 0)))
        1000000 none none (some [chars ("a"), chars ("b")]) 9
        [] [{ rid := chars ("s1"), content := chars ("x"),
              md := [(tagsKey, MetaVal.s (chars ("b")))] }] [] =
      .ok [{ rid := chars ("s1"), content := chars ("x"),
             md := [(tagsKey, MetaVal.s (chars ("b")))],
             memoryType := chars ("semantic"), relevance := none }]
    ∧ (tagSplit (chars ("b"))).contains (chars ("a")) = false := by
  decide

/-- Claim C3, amended: in the tags branch of reflection sampling only the
last requested tag filters: the where-clause loop overwrites the single
`"tags"` key and no local post-filter exists, so every fetched candidate is
guaranteed to contain the LAST requested tag (and nothing guarantees the
earlier ones). -/
theorem reflection_tags_last_only_amended (rE rS rP : RankFn) (nowSec : Int)
    (timeRange : Option Str) (ts : List Str) (maxMem : Nat)
    (collE collS collP : Collection) (ms : List SourceMem) (m : SourceMem)
    (hts : ts ≠ [])
    (h : get_memories_for_reflection rE rS rP nowSec none timeRange (some ts) maxMem
        collE collS collP = .ok ms)
    (hm : m ∈ ms) :
    (tagSplit (mdGetStrD m.md tagsKey [])).contains (ts.getLast hts) = true := by
  unfold get_memories_for_reflection at h
  rw [show qTruthy none = false from rfl] at h
  rw [if_neg Bool.false_ne_true] at h
  have htt : tagsTruthy (some ts) = true := by
    simp [tagsTruthy, hts]
  rw [if_pos htt, show ((some ts).getD []) = ts from rfl] at h
  cases hb : reflectionTagsBranch nowSec ts timeRange maxMem collE collS collP with
  | raised e =>
    rw [hb] at h
    simp at h
  | ok allm =>
    rw [hb] at h
    simp only [PyResult.ok.injEq] at h
    rw [← h] at hm
    have hmem : m ∈ allm := List.mem_of_mem_take hm
    unfold reflectionTagsBranch at hb
    cases h1 : tagsBranchLayer nowSec ts timeRange (chars ("episodic")) eventTimeKey
        (maxMem / 3) collE with
    | raised e =>
      rw [h1] at hb
      simp at hb
    | ok ep =>
      rw [h1] at hb
      cases h2 : tagsBranchLayer nowSec ts timeRange (chars ("semantic")) createdAtKey
          (maxMem / 3) collS with
      | raised e =>
        rw [h2] at hb
        simp at hb
      | ok sm =>
        rw [h2] at hb
        cases h3 : tagsBranchLayer nowSec ts timeRange (chars ("procedural")) createdAtKey
            (maxMem / 3) collP with
        | raised e =>
          rw [h3] at hb
          simp at hb
        | ok pr =>
          rw [h3] at hb
          simp only [PyResult.ok.injEq] at hb
          rw [← hb] at hmem
          rcases List.mem_append.mp hmem with hin | hin3
          · rcases List.mem_append.mp hin with hin1 | hin2
            · exact tagsBranchLayer_member nowSec ts timeRange (chars ("episodic"))
                eventTimeKey (maxMem / 3) collE ep m hts (by decide) h1 hin1
            · exact tagsBranchLayer_member nowSec ts timeRange (chars ("semantic"))
                createdAtKey (maxMem / 3) collS sm m hts (by decide) h2 hin2
          · exact tagsBranchLayer_member nowSec ts timeRange (chars ("procedural"))
              createdAtKey (maxMem / 3) collP pr m hts (by decide) h3 hin3

/-- Claim C3, witness: the amended theorem applied to the concrete state of
the counterexample — the fetched record does contain the last tag `"b"`. -/
theorem reflection_tags_last_only_amended_witness :
    (tagSplit (mdGetStrD [(tagsKey, MetaVal.s (chars ("b")))] tagsKey [])).contains
      (([chars ("a"), chars ("b")] : List Str).getLast (by decide)) = true :=
  reflection_tags_last_only_amended (fun _ l => l.map (fun r => (r, 0)))
    (fun _ l => l.map (fun r => (r, 0))) (fun _ l => l.map (fun r => (r, 0)))
    1000000 none [chars ("a"), chars ("b")] 9
    [] [{ rid := chars ("s1"), content := chars ("x"),
          md := [(tagsKey, MetaVal.s (chars ("b")))] }] []
    [{ rid := chars ("s1"), content := chars ("x"),
       md := [(tagsKey, MetaVal.s (chars ("b")))],
       memoryType := chars ("semantic"), relevance := none }]
    { rid := chars ("s1"), content := chars ("x"),
      md := [(tagsKey, MetaVal.s (chars ("b")))],
      memoryType := chars ("semantic"), relevance := none }
    (by decide) (by decide) (by decide)

/-! ## Claim C5 -/

/-- Claim C5, confirmed: when the completion call raised, or parsing found
no usable reflection in the response, `_generate_reflections_with_llm`
yields exactly one fallback reflection whose `source_memories` is the full
sampled candidate id list (the grouped id list, a permutation of the
candidates' ids); the function is total, so no parsing or completion
exception ever propagates. -/
theorem llm_failure_single_fallback (sources : List SourceMem) (llm : PyResult Str)
    (h : ∀ resp, llm = .ok resp → parsedChunks resp (groupedIds sources) = []) :
    ∃ fb : ParsedReflection,
      generate_reflections_with_llm llm sources = [fb]
      ∧ fb.sourceMemoryIds = groupedIds sources
      ∧ List.Perm (groupedIds sources) (sources.map SourceMem.rid)
      ∧ ((∃ e, llm = PyResult.raised e ∧ fb = errorReflection e (groupedIds sources))
          ∨ fb = noPatternReflection (groupedIds sources)) := by
  cases llm with
  | raised e =>
    exact ⟨errorReflection e (groupedIds sources), rfl, rfl, groupedIds_perm sources,
      Or.inl ⟨e, rfl, rfl⟩⟩
  | ok resp =>
    have hp := h resp rfl
    refine ⟨noPatternReflection (groupedIds sources), ?_, rfl,
      groupedIds_perm sources, Or.inr rfl⟩
    show parse_reflection_response resp (groupedIds sources)
        = [noPatternReflection (groupedIds sources)]
    show (if parsedChunks resp (groupedIds sources) = []
        then [noPatternReflection (groupedIds sources)]
        else parsedChunks resp (groupedIds sources))
        = [noPatternReflection (groupedIds sources)]
    rw [hp, if_pos rfl]

/-- Claim C5, witness: the theorem applied to a one-candidate sample and a
response with no recognizable `REFLECTION` section. -/
theorem llm_failure_single_fallback_witness :
    ∃ fb : ParsedReflection,
      generate_reflections_with_llm (.ok (chars ("junk response")))
          [{ rid := chars ("m1"), content := chars ("c"), md := [],
             memoryType := chars ("semantic"), relevance := none }] = [fb]
      ∧ fb.sourceMemoryIds = groupedIds
          [{ rid := chars ("m1"), content := chars ("c"), md := [],
             memoryType := chars ("semantic"), relevance := none }]
      ∧ List.Perm (groupedIds
          [{ rid := chars ("m1"), content := chars ("c"), md := [],
             memoryType := chars ("semantic"), relevance := none }])
          (([{ rid := chars ("m1"), content := chars ("c"), md := [],
               memoryType := chars ("semantic"), relevance := none }] :
            List SourceMem).map SourceMem.rid)
      ∧ ((∃ e, (PyResult.ok (chars ("junk response")) : PyResult Str)
            = PyResult.raised e
            ∧ fb = errorReflection e (groupedIds
                [{ rid := chars ("m1"), content := chars ("c"), md := [],
                   memoryType := chars ("semantic"), relevance := none }]))
          ∨ fb = noPatternReflection (groupedIds
              [{ rid := chars ("m1"), content := chars ("c"), md := [],
                 memoryType := chars ("semantic"), relevance := none }])) :=
  llm_failure_single_fallback
    [{ rid := chars ("m1"), content := chars ("c"), md := [],
       memoryType := chars ("semantic"), relevance := none }]
    (.ok (chars ("junk response")))
    (by
      intro resp hresp
      cases hresp
      decide)

/-! ## Claim C4 -/

theorem stepTrimmed_nonheader_none (s : Sections) (bb : List Str) (l : Str)
    (hl : headerOf? l = none) :
    stepTrimmed ⟨s, none, bb⟩ l = ⟨s, none, bb⟩ := by
  unfold stepTrimmed
  by_cases he : l = []
  · rw [if_pos he]
  · rw [if_neg he, hl]

theorem foldl_skip_pre (pre : List Str) (s : Sections) (bb : List Str)
    (hpre : ∀ l ∈ pre, headerOf? l = none) :
    pre.foldl stepTrimmed ⟨s, none, bb⟩ = ⟨s, none, bb⟩ := by
  induction pre with
  | nil => rfl
  | cons l pre ih =>
    rw [List.foldl_cons,
      stepTrimmed_nonheader_none s bb l (hpre l (List.mem_cons_self _ _))]
    exact ih (fun x hx => hpre x (List.mem_cons_of_mem _ hx))

theorem stepTrimmed_body (s : Sections) (c : SecName) (bb : List Str) (l : Str)
    (hne : l ≠ []) (hh : headerOf? l = none) :
    stepTrimmed ⟨s, some c, bb⟩ l = ⟨s, some c, bb ++ [l]⟩ := by
  unfold stepTrimmed
  rw [if_neg hne, hh]

theorem foldl_body : ∀ (b : List Str) (s : Sections) (c : SecName) (bb : List Str),
    (∀ l ∈ b, l ≠ [] ∧ headerOf? l = none) →
    b.foldl stepTrimmed ⟨s, some c, bb⟩ = ⟨s, some c, bb ++ b⟩
  | [], _, _, bb, _ => by simp
  | l :: b, s, c, bb, hb => by
    rw [List.foldl_cons,
      stepTrimmed_body s c bb l (hb l (List.mem_cons_self _ _)).1
        (hb l (List.mem_cons_self _ _)).2,
      foldl_body b s c (bb ++ [l]) (fun x hx => hb x (List.mem_cons_of_mem _ hx)),
      List.append_assoc]
    rfl

theorem scanChunk_simple (c : Str) (pre b : List Str)
    (hsplit : (splitOnL c (['\n'])).map trimL = pre ++ chars ("REFLECTION:") :: b)
    (hpre : ∀ l ∈ pre, headerOf? l = none)
    (hbne : b ≠ [])
    (hb : ∀ l ∈ b, l ≠ [] ∧ headerOf? l = none) :
    scanChunk c = { reflection := some (joinL (['\n']) b) } := by
  unfold scanChunk
  have hfold : (splitOnL c (['\n'])).foldl (fun st l => stepTrimmed st (trimL l))
      (⟨{}, none, []⟩ : ScanSt)
      = ((splitOnL c (['\n'])).map trimL).foldl stepTrimmed ⟨{}, none, []⟩ := by
    rw [List.foldl_map]
  rw [hfold, hsplit, List.foldl_append, foldl_skip_pre pre {} [] hpre, List.foldl_cons]
  have hhead : stepTrimmed ⟨{}, none, []⟩ (chars ("REFLECTION:"))
      = ⟨{}, some SecName.refl, []⟩ := by decide
  rw [hhead, foldl_body b {} SecName.refl [] hb]
  show (if ([] : List Str) ++ b ≠ [] then
      secSet {} SecName.refl (joinL (['\n']) (([] : List Str) ++ b))
    else ({} : Sections)) = { reflection := some (joinL (['\n']) b) }
  rw [List.nil_append, if_pos hbne]
  rfl

theorem chunkReflection_simple (ids : List Str) (c : Str) (pre b : List Str)
    (hsplit : (splitOnL c (['\n'])).map trimL = pre ++ chars ("REFLECTION:") :: b)
    (hpre : ∀ l ∈ pre, headerOf? l = none)
    (hbne : b ≠ [])
    (hb : ∀ l ∈ b, l ≠ [] ∧ headerOf? l = none) :
    chunkReflection? ids c
      = some { content := joinL (['\n']) b, sourceMemoryIds := ids, tags := [] } := by
  unfold chunkReflection?
  rw [scanChunk_simple c pre b hsplit hpre hbne hb]

theorem parsedChunks_step (ids : List Str) (acc : List ParsedReflection) (c : Str)
    (r : ParsedReflection) (ht : ¬(trimL c = [])) (hc : chunkReflection? ids c = some r) :
    (if trimL c = [] then acc
      else match chunkReflection? ids c with
        | none => acc
        | some r => acc ++ [r]) = acc ++ [r] := by
  rw [if_neg ht, hc]

theorem store_loop_two (ts : Str) (idFn : Nat → Str) (collR : Collection)
    (cnt1 cnt2 : Str) (sm : List Str) (hsm : sm ≠ []) :
    (store_reflections_loop ts idFn none none
      [{ content := cnt1, sourceMemoryIds := sm, tags := [] },
       { content := cnt2, sourceMemoryIds := sm, tags := [] }] collR).2
    = collR ++
      [{ rid := idFn 0, content := cnt1,
         md := alistSet (dictUpdate []
           [(memoryTypeKey, MetaVal.s (chars ("reflective"))),
            (createdAtKey, MetaVal.s ts), (updatedAtKey, MetaVal.s ts)])
           sourceMemoriesKey (MetaVal.s (encodeStrList sm)) },
       { rid := idFn 1, content := cnt2,
         md := alistSet (dictUpdate []
           [(memoryTypeKey, MetaVal.s (chars ("reflective"))),
            (createdAtKey, MetaVal.s ts), (updatedAtKey, MetaVal.s ts)])
           sourceMemoriesKey (MetaVal.s (encodeStrList sm)) }] := by
  cases sm with
  | nil => exact absurd rfl hsm
  | cons s sm' =>
    have h : (store_reflections_loop ts idFn none none
        [{ content := cnt1, sourceMemoryIds := s :: sm', tags := [] },
         { content := cnt2, sourceMemoryIds := s :: sm', tags := [] }] collR).2
        = (collR ++
            [{ rid := idFn 0, content := cnt1,
               md := alistSet (dictUpdate []
                 [(memoryTypeKey, MetaVal.s (chars ("reflective"))),
                  (createdAtKey, MetaVal.s ts), (updatedAtKey, MetaVal.s ts)])
                 sourceMemoriesKey (MetaVal.s (encodeStrList (s :: sm'))) }]) ++
            [{ rid := idFn 1, content := cnt2,
               md := alistSet (dictUpdate []
                 [(memoryTypeKey, MetaVal.s (chars ("reflective"))),
                  (createdAtKey, MetaVal.s ts), (updatedAtKey, MetaVal.s ts)])
                 sourceMemoriesKey (MetaVal.s (encodeStrList (s :: sm'))) }] := rfl
    rw [h, List.append_assoc]
    rfl

/-- Claim C4, confirmed: a response made of two `---`-separated chunks, each
containing the line `REFLECTION:` followed by body lines (possibly preceded
by non-header lines, which the scanner drops), parses into exactly two
reflections, and storing them writes exactly two reflective records whose
`source_memories` metadata is the JSON encoding of the full sampled id
list; a chunk lacking a `REFLECTION` section would be discarded silently
(it yields `none` in `chunkReflection?`). -/
theorem two_chunk_reflection_parse_store
    (memoryIds : List Str) (resp c1 c2 : Str) (pre1 pre2 b1 b2 : List Str)
    (ts : Str) (idFn : Nat → Str) (collR : Collection)
    (hsplit : splitOnL resp (chars ("---")) = [c1, c2])
    (h1 : (splitOnL c1 (['\n'])).map trimL = pre1 ++ chars ("REFLECTION:") :: b1)
    (hpre1 : ∀ l ∈ pre1, headerOf? l = none)
    (hb1ne : b1 ≠ []) (hb1 : ∀ l ∈ b1, l ≠ [] ∧ headerOf? l = none)
    (ht1 : ¬(trimL c1 = []))
    (h2 : (splitOnL c2 (['\n'])).map trimL = pre2 ++ chars ("REFLECTION:") :: b2)
    (hpre2 : ∀ l ∈ pre2, headerOf? l = none)
    (hb2ne : b2 ≠ []) (hb2 : ∀ l ∈ b2, l ≠ [] ∧ headerOf? l = none)
    (ht2 : ¬(trimL c2 = []))
    (hids : memoryIds ≠ []) :
    parse_reflection_response resp memoryIds
      = [{ content := joinL (['\n']) b1, sourceMemoryIds := memoryIds, tags := [] },
         { content := joinL (['\n']) b2, sourceMemoryIds := memoryIds, tags := [] }]
    ∧ ∃ r1 r2 : Record,
        (store_reflections_loop ts idFn none none
          (parse_reflection_response resp memoryIds) collR).2 = collR ++ [r1, r2]
        ∧ alistGet? r1.md sourceMemoriesKey
            = some (MetaVal.s (encodeStrList memoryIds))
        ∧ alistGet? r2.md sourceMemoriesKey
            = some (MetaVal.s (encodeStrList memoryIds)) := by
  have hc1 := chunkReflection_simple memoryIds c1 pre1 b1 h1 hpre1 hb1ne hb1
  have hc2 := chunkReflection_simple memoryIds c2 pre2 b2 h2 hpre2 hb2ne hb2
  have hpc : parsedChunks resp memoryIds
      = [{ content := joinL (['\n']) b1, sourceMemoryIds := memoryIds, tags := [] },
         { content := joinL (['\n']) b2, sourceMemoryIds := memoryIds, tags := [] }] := by
    unfold parsedChunks
    rw [hsplit]
    simp only [List.foldl_cons, List.foldl_nil]
    rw [parsedChunks_step memoryIds [] c1 _ ht1 hc1,
      parsedChunks_step memoryIds _ c2 _ ht2 hc2]
    rfl
  have hpr : parse_reflection_response resp memoryIds
      = [{ content := joinL (['\n']) b1, sourceMemoryIds := memoryIds, tags := [] },
         { content := joinL (['\n']) b2, sourceMemoryIds := memoryIds, tags := [] }] := by
    show (if parsedChunks resp memoryIds = [] then [noPatternReflection memoryIds]
        else parsedChunks resp memoryIds) = _
    rw [hpc, if_neg (List.cons_ne_nil _ _)]
  refine ⟨hpr, ?_⟩
  rw [hpr]
  refine ⟨_, _, store_loop_two ts idFn collR (joinL (['\n']) b1) (joinL (['\n']) b2)
      memoryIds hids, ?_, ?_⟩
  · show alistGet? (alistSet (dictUpdate []
        [(memoryTypeKey, MetaVal.s (chars ("reflective"))),
         (createdAtKey, MetaVal.s ts), (updatedAtKey, MetaVal.s ts)])
        sourceMemoriesKey (MetaVal.s (encodeStrList memoryIds))) sourceMemoriesKey
        = some (MetaVal.s (encodeStrList memoryIds))
    exact alistGet?_alistSet_self _ _ _
  · show alistGet? (alistSet (dictUpdate []
        [(memoryTypeKey, MetaVal.s (chars ("reflective"))),
         (createdAtKey, MetaVal.s ts), (updatedAtKey, MetaVal.s ts)])
        sourceMemoriesKey (MetaVal.s (encodeStrList memoryIds))) sourceMemoriesKey
        = some (MetaVal.s (encodeStrList memoryIds))
    exact alistGet?_alistSet_self _ _ _

/-- Claim C4, witness: the theorem applied to the concrete response
`REFLECTION:\nalpha---\nREFLECTION:\nbeta` with sampled ids `m1, m2`. -/
theorem two_chunk_reflection_parse_store_witness :
    parse_reflection_response (chars ("REFLECTION:\nalpha---\nREFLECTION:\nbeta"))
        [chars ("m1"), chars ("m2")]
      = [{ content := joinL (['\n']) [chars ("alpha")],
           sourceMemoryIds := [chars ("m1"), chars ("m2")], tags := [] },
         { content := joinL (['\n']) [chars ("beta")],
           sourceMemoryIds := [chars ("m1"), chars ("m2")], tags := [] }]
    ∧ ∃ r1 r2 : Record,
        (store_reflections_loop (chars ("t0")) (fun _ => chars ("rid")) none none
          (parse_reflection_response
            (chars ("REFLECTION:\nalpha---\nREFLECTION:\nbeta"))
            [chars ("m1"), chars ("m2")]) []).2 = [] ++ [r1, r2]
        ∧ alistGet? r1.md sourceMemoriesKey
            = some (MetaVal.s (encodeStrList [chars ("m1"), chars ("m2")]))
        ∧ alistGet? r2.md sourceMemoriesKey
            = some (MetaVal.s (encodeStrList [chars ("m1"), chars ("m2")])) :=
  two_chunk_reflection_parse_store [chars ("m1"), chars ("m2")]
    (chars ("REFLECTION:\nalpha---\nREFLECTION:\nbeta"))
    (chars ("REFLECTION:\nalpha")) (chars ("\nREFLECTION:\nbeta"))
    [] [[]] [chars ("alpha")] [chars ("beta")]
    (chars ("t0")) (fun _ => chars ("rid")) []
    (by decide) (by decide) (by decide) (by decide) (by decide) (by decide)
    (by decide) (by decide) (by decide) (by decide) (by decide) (by decide)

/-! ## Claim C8 -/

theorem contains_false_not_mem {l : List Str} {x : Str}
    (h : l.contains x = false) : x ∉ l := by
  intro hmem
  have : l.contains x = true := by
    simpa [List.contains, List.elem_eq_mem] using hmem
  rw [h] at this
  exact Bool.false_ne_true this

theorem contains_true_mem {l : List Str} {x : Str}
    (h : l.contains x = true) : x ∈ l := by
  simpa [List.contains, List.elem_eq_mem] using h

theorem nodeFold_inv (memType : Str) :
    ∀ (rs : List Record) (st : List GNode × List Str),
    st.1.map GNode.nid = st.2 → st.2.Nodup →
    ((rs.foldl (fun st r =>
        if st.2.contains r.rid then st
        else
          (st.1 ++ [{ nid := r.rid, label := nodeLabel memType r.rid r.md,
                      ntype := memType, createdAt := mdGetStrD r.md createdAtKey [] }],
           st.2 ++ [r.rid])) st).1.map GNode.nid
      = (rs.foldl (fun st r =>
        if st.2.contains r.rid then st
        else
          (st.1 ++ [{ nid := r.rid, label := nodeLabel memType r.rid r.md,
                      ntype := memType, createdAt := mdGetStrD r.md createdAtKey [] }],
           st.2 ++ [r.rid])) st).2)
    ∧ ((rs.foldl (fun st r =>
        if st.2.contains r.rid then st
        else
          (st.1 ++ [{ nid := r.rid, label := nodeLabel memType r.rid r.md,
                      ntype := memType, createdAt := mdGetStrD r.md createdAtKey [] }],
           st.2 ++ [r.rid])) st).2).Nodup
  | [], st, h1, h2 => ⟨h1, h2⟩
  | r :: rs, st, h1, h2 => by
    rw [List.foldl_cons]
    cases hc : st.2.contains r.rid with
    | true =>
      rw [if_pos rfl]
      exact nodeFold_inv memType rs st h1 h2
    | false =>
      rw [if_neg Bool.false_ne_true]
      refine nodeFold_inv memType rs _ ?_ ?_
      · rw [List.map_append, h1]
        rfl
      · rw [List.nodup_append]
        refine ⟨h2, List.nodup_singleton _, ?_⟩
        intro x hx hx'
        rw [List.mem_singleton.mp hx'] at hx
        exact contains_false_not_mem hc hx

theorem graphAddNodes_inv (layers : List (Str × Collection)) (maxItems : Nat)
    (st : List GNode × List Str) (memType : Str)
    (h1 : st.1.map GNode.nid = st.2) (h2 : st.2.Nodup) :
    ((graphAddNodes layers maxItems st memType).1.map GNode.nid
      = (graphAddNodes layers maxItems st memType).2)
    ∧ (graphAddNodes layers maxItems st memType).2.Nodup := by
  unfold graphAddNodes
  cases hb : memoryModuleKeys.contains memType with
  | false =>
    rw [if_pos (show (!false) = true from rfl)]
    exact ⟨h1, h2⟩
  | true =>
    rw [if_neg (show ¬((!true) = true) from Bool.false_ne_true)]
    cases hl : alistGet? layers memType with
    | none => exact ⟨h1, h2⟩
    | some coll => exact nodeFold_inv memType (coll.take maxItems) st h1 h2

theorem graphNodesState_inv (layers : List (Str × Collection)) :
    ∀ (memTypes : List Str) (st : List GNode × List Str) (maxItems : Nat),
    st.1.map GNode.nid = st.2 → st.2.Nodup →
    ((memTypes.foldl (graphAddNodes layers maxItems) st).1.map GNode.nid
      = (memTypes.foldl (graphAddNodes layers maxItems) st).2)
    ∧ ((memTypes.foldl (graphAddNodes layers maxItems) st).2).Nodup
  | [], st, _, h1, h2 => ⟨h1, h2⟩
  | t :: memTypes, st, maxItems, h1, h2 => by
    rw [List.foldl_cons]
    have h := graphAddNodes_inv layers maxItems st t h1 h2
    exact graphNodesState_inv layers memTypes _ maxItems h.1 h.2

theorem edgeFoldSids_inv (nodeIds : List Str) (rid : Str) :
    ∀ (sids : List Str) (st : List GEdge × List (Str × Str)),
    (∀ e ∈ st.1, e.source ∈ nodeIds ∧ e.target ∈ nodeIds) →
    ∀ e ∈ (sids.foldl (fun st sid =>
        if nodeIds.contains sid && nodeIds.contains rid then
          if st.2.contains (sid, rid) then st
          else (st.1 ++ [{ source := sid, target := rid }], st.2 ++ [(sid, rid)])
        else st) st).1,
      e.source ∈ nodeIds ∧ e.target ∈ nodeIds
  | [], _, hq => hq
  | sid :: sids, st, hq => by
    rw [List.foldl_cons]
    cases hg : nodeIds.contains sid && nodeIds.contains rid with
    | false =>
      rw [if_neg Bool.false_ne_true]
      exact edgeFoldSids_inv nodeIds rid sids st hq
    | true =>
      rw [if_pos rfl]
      rcases Bool.and_eq_true_iff.mp hg with ⟨hg1, hg2⟩
      cases hdup : st.2.contains (sid, rid) with
      | true =>
        rw [if_pos rfl]
        exact edgeFoldSids_inv nodeIds rid sids st hq
      | false =>
        rw [if_neg Bool.false_ne_true]
        refine edgeFoldSids_inv nodeIds rid sids _ ?_
        intro e he
        rcases List.mem_append.mp he with he1 | he2
        · exact hq e he1
        · rw [List.mem_singleton.mp he2]
          exact ⟨contains_true_mem hg1, contains_true_mem hg2⟩

theorem edgeFoldRecs_inv (nodeIds : List Str) :
    ∀ (rs : List Record) (st : List GEdge × List (Str × Str)),
    (∀ e ∈ st.1, e.source ∈ nodeIds ∧ e.target ∈ nodeIds) →
    ∀ e ∈ (rs.foldl (fun st r =>
        match alistGet? r.md sourceMemoriesKey with
        | some (MetaVal.s sm) =>
          match decodeStrList sm with
          | some sourceIds =>
            sourceIds.foldl
              (fun st sid =>
                if nodeIds.contains sid && nodeIds.contains r.rid then
                  if st.2.contains (sid, r.rid) then st
                  else (st.1 ++ [{ source := sid, target := r.rid }],
                        st.2 ++ [(sid, r.rid)])
                else st)
              st
          | none => st
        | _ => st) st).1,
      e.source ∈ nodeIds ∧ e.target ∈ nodeIds
  | [], _, hq => hq
  | r :: rs, st, hq => by
    rw [List.foldl_cons]
    cases hmd : alistGet? r.md sourceMemoriesKey with
    | none => exact edgeFoldRecs_inv nodeIds rs st hq
    | some mv =>
      cases mv with
      | s sm =>
        cases hdec : decodeStrList sm with
        | none =>
          simp only [hdec]
          exact edgeFoldRecs_inv nodeIds rs st hq
        | some sourceIds =>
          simp only [hdec]
          exact edgeFoldRecs_inv nodeIds rs _
            (edgeFoldSids_inv nodeIds r.rid sourceIds st hq)
      | num v => exact edgeFoldRecs_inv nodeIds rs st hq
      | int v => exact edgeFoldRecs_inv nodeIds rs st hq
      | bool v => exact edgeFoldRecs_inv nodeIds rs st hq
  termination_by rs => rs.length

theorem graphEdgesFor_inv (layers : List (Str × Collection)) (maxItems : Nat)
    (nodeIds : List Str) (st : List GEdge × List (Str × Str)) (memType : Str)
    (hq : ∀ e ∈ st.1, e.source ∈ nodeIds ∧ e.target ∈ nodeIds) :
    ∀ e ∈ (graphEdgesFor layers maxItems nodeIds st memType).1,
      e.source ∈ nodeIds ∧ e.target ∈ nodeIds := by
  unfold graphEdgesFor
  by_cases hm : memType ≠ chars ("reflective")
  · rw [if_pos hm]
    exact hq
  · rw [if_neg hm]
    cases hl : alistGet? layers (chars ("reflective")) with
    | none => exact hq
    | some coll => exact edgeFoldRecs_inv nodeIds (coll.take maxItems) st hq

theorem graphEdges_foldl_inv (layers : List (Str × Collection)) (maxItems : Nat)
    (nodeIds : List Str) :
    ∀ (memTypes : List Str) (st : List GEdge × List (Str × Str)),
    (∀ e ∈ st.1, e.source ∈ nodeIds ∧ e.target ∈ nodeIds) →
    ∀ e ∈ (memTypes.foldl (graphEdgesFor layers maxItems nodeIds) st).1,
      e.source ∈ nodeIds ∧ e.target ∈ nodeIds
  | [], _, hq => hq
  | t :: memTypes, st, hq => by
    rw [List.foldl_cons]
    exact graphEdges_foldl_inv layers maxItems nodeIds memTypes _
      (graphEdgesFor_inv layers maxItems nodeIds st t hq)

/-- Claim C8, confirmed: the memory graph has one node per distinct record
id (node ids are duplicate-free), every edge's endpoints are both in the
node set, and — the claim's concrete scenario — a reflective record whose
`source_memories` names one existing and one deleted id contributes exactly
one edge, to the existing id, with no error. -/
theorem memory_graph_nodes_edges :
    (∀ (layers : List (Str × Collection)) (mts : Option (List Str)) (n : Nat),
      ((generate_memory_graph layers mts n).nodes.map GNode.nid).Nodup)
    ∧ (∀ (layers : List (Str × Collection)) (mts : Option (List Str)) (n : Nat),
        ∀ e ∈ (generate_memory_graph layers mts n).edges,
          e.source ∈ (generate_memory_graph layers mts n).nodes.map GNode.nid
          ∧ e.target ∈ (generate_memory_graph layers mts n).nodes.map GNode.nid)
    ∧ (generate_memory_graph
        [(chars ("semantic"), [{ rid := chars ("m1"), content := [], md := [] }]),
         (chars ("reflective"),
          [{ rid := chars ("refl1"), content := [],
             md := [(sourceMemoriesKey,
               MetaVal.s (encodeStrList [chars ("m1"), chars ("gone")]))] }])]
        none 1000).edges
      = [{ source := chars ("m1"), target := chars ("refl1") }] := by
  have main : ∀ (K : List Str) (layers : List (Str × Collection)) (n : Nat),
      ((graphNodesState layers K n).1.map GNode.nid = (graphNodesState layers K n).2)
      ∧ ((graphNodesState layers K n).2.Nodup)
      ∧ (∀ e ∈ (K.foldl (graphEdgesFor layers n (graphNodesState layers K n).2)
            ([], [])).1,
          e.source ∈ (graphNodesState layers K n).2
          ∧ e.target ∈ (graphNodesState layers K n).2) := by
    intro K layers n
    have h := graphNodesState_inv layers K ([], []) n rfl List.nodup_nil
    exact ⟨h.1, h.2, graphEdges_foldl_inv layers n _ K ([], [])
      (fun e he => absurd he (List.not_mem_nil e))⟩
  refine ⟨?_, ?_, by decide⟩
  · intro layers mts n
    cases mts with
    | none =>
      have hm := main memoryModuleKeys layers n
      show ((graphNodesState layers memoryModuleKeys n).1.map GNode.nid).Nodup
      rw [hm.1]
      exact hm.2.1
    | some ts =>
      have hm := main (if ts = [] then memoryModuleKeys else ts) layers n
      show ((graphNodesState layers (if ts = [] then memoryModuleKeys else ts) n).1.map
        GNode.nid).Nodup
      rw [hm.1]
      exact hm.2.1
  · intro layers mts n e he
    cases mts with
    | none =>
      have hm := main memoryModuleKeys layers n
      show e.source ∈ (graphNodesState layers memoryModuleKeys n).1.map GNode.nid
          ∧ e.target ∈ (graphNodesState layers memoryModuleKeys n).1.map GNode.nid
      rw [hm.1]
      exact hm.2.2 e he
    | some ts =>
      have hm := main (if ts = [] then memoryModuleKeys else ts) layers n
      show e.source ∈ (graphNodesState layers (if ts = [] then memoryModuleKeys else ts)
            n).1.map GNode.nid
          ∧ e.target ∈ (graphNodesState layers (if ts = [] then memoryModuleKeys else ts)
            n).1.map GNode.nid
      rw [hm.1]
      exact hm.2.2 e he

/-- Claim C8, witness: the node and edge properties instantiated on the
concrete one-existing-one-deleted scenario, through the main theorem. -/
theorem memory_graph_nodes_edges_witness :
    ((generate_memory_graph
        [(chars ("semantic"), [{ rid := chars ("m1"), content := [], md := [] }]),
         (chars ("reflective"),
          [{ rid := chars ("refl1"), content := [],
             md := [(sourceMemoriesKey,
               MetaVal.s (encodeStrList [chars ("m1"), chars ("gone")]))] }])]
        none 1000).nodes.map GNode.nid).Nodup
    ∧ (({ source := chars ("m1"), target := chars ("refl1") } : GEdge).source
        ∈ (generate_memory_graph
          [(chars ("semantic"), [{ rid := chars ("m1"), content := [], md := [] }]),
           (chars ("reflective"),
            [{ rid := chars ("refl1"), content := [],
               md := [(sourceMemoriesKey,
                 MetaVal.s (encodeStrList [chars ("m1"), chars ("gone")]))] }])]
          none 1000).nodes.map GNode.nid
      ∧ ({ source := chars ("m1"), target := chars ("refl1") } : GEdge).target
        ∈ (generate_memory_graph
          [(chars ("semantic"), [{ rid := chars ("m1"), content := [], md := [] }]),
           (chars ("reflective"),
            [{ rid := chars ("refl1"), content := [],
               md := [(sourceMemoriesKey,
                 MetaVal.s (encodeStrList [chars ("m1"), chars ("gone")]))] }])]
          none 1000).nodes.map GNode.nid) :=
  ⟨memory_graph_nodes_edges.1
    [(chars ("semantic"), [{ rid := chars ("m1"), content := [], md := [] }]),
     (chars ("reflective"),
      [{ rid := chars ("refl1"), content := [],
         md := [(sourceMemoriesKey,
           MetaVal.s (encodeStrList [chars ("m1"), chars ("gone")]))] }])] none 1000,
   memory_graph_nodes_edges.2.1
    [(chars ("semantic"), [{ rid := chars ("m1"), content := [], md := [] }]),
     (chars ("reflective"),
      [{ rid := chars ("refl1"), content := [],
         md := [(sourceMemoriesKey,
           MetaVal.s (encodeStrList [chars ("m1"), chars ("gone")]))] }])] none 1000
    { source := chars ("m1"), target := chars ("refl1") } (by decide)⟩
